import Mathlib

/-!
Verification development for the eddiechn/vector-db repository (Go).

This file gives a shallow embedding, in Lean 4, of the parts of the program
that the verified claims talk about:

* the HNSW index (internal/hnsw.go): nodes, insert, delete, search,
  searchLayer, selectNeighbors, addConnection, pruneConnections,
  getRandomLevel, findNewEntryPoint;
* the facade (vectordb.go): VectorDatabase with Insert, Search, Delete, Get,
  List, Save, Load;
* the math helpers (vector_math.go): CalculateOptimalEf and the sqrt-free
  distance kernels;
* the configuration (types.go): DefaultHNSWConfig and the priority queue
  used by search (container/heap protocol).

Modelling conventions, used consistently below:

* Go float32/float64 arithmetic is modelled exactly over the rationals; the
  distance kernels that need a square root (cosine, euclidean) are not exactly
  representable over the rationals, so every index operation takes the
  distance kernel as an explicit function argument abbrev'd by the type
  DistFn, standing for CalculateDistance(a, b, metric) of the configured
  metric.  The sqrt-free kernels (manhattan, dot product) are defined exactly
  and are used to instantiate DistFn in concrete witnesses.
* A Go map[string]V is modelled by an association list with unique keys;
  map iteration order is unspecified in Go, and the list order stands for one
  admissible iteration order.  Connection sets map[string]bool are modelled
  by duplicate-free lists of strings (insertion adds at the tail).
* Node pointers (the nodes map stores *HNSWNode, and entryPoint aliases the
  map-resident node) are modelled by node ids plus lookup; pointer fields
  that Go reads directly (ID, Vector) are immutable after construction, so a
  stale copied node value agrees with the map-resident one on those fields.
* A Go runtime panic (nil-map/node dereference, slice index out of range,
  rand.Intn with non-positive bound) is modelled by the value none of an
  Option-typed result.  A `some` result is a terminating, panic-free run.
* The rand.Rand stream is modelled by explicit draw functions: a float
  stream (ℕ → ℚ) for rng.Float64 and an integer stream (ℕ → ℕ) for
  rng.Intn, where the n-th Intn(b) call uses draw n reduced mod b.
* Wall-clock timestamps (time.Now) are passed as an explicit natural number.
  The stats tracker (request counters / latency) is omitted: no claim
  observes it and it does not influence any other state.
-/

namespace VectorDB

/-- Distance kernel parameter: models CalculateDistance(a, b, metric) of the
configured metric, vector_math.go lines 8-21. -/
abbrev DistFn := List ℚ → List ℚ → ℚ

/-- Model of DistanceMetric (types.go lines 40-47). -/
inductive DistanceMetric where
  | cosineSimilarity
  | euclideanDistance
  | dotProduct
  | manhattanDistance
deriving DecidableEq

/-- ManhattanDistanceScore (vector_math.go lines 73-84) on equal-length
vectors: the running sum of absolute coordinate differences.  Go returns
+Inf on a length mismatch; the index only ever compares vectors of the
configured dimension, and concrete uses below respect that. -/
def ManhattanDistanceScore (a b : List ℚ) : ℚ :=
  (a.zip b).foldl (fun sum p => sum + |p.1 - p.2|) 0

/-- DotProductScore (vector_math.go lines 59-70) on equal-length vectors. -/
def DotProductScore (a b : List ℚ) : ℚ :=
  (a.zip b).foldl (fun sum p => sum + p.1 * p.2) 0

/-- The distance kernel for the manhattan metric, as dispatched by
CalculateDistance (vector_math.go line 17). -/
def manhattanDist : DistFn := fun a b => ManhattanDistanceScore a b

/-- The distance kernel for the dot-product metric: CalculateDistance negates
the score for max-heap behaviour (vector_math.go line 15). -/
def dotProductDist : DistFn := fun a b => -(DotProductScore a b)

/-- Go's int(x) conversion on a float: truncation toward zero, modelled on ℚ. -/
def goTruncQ (q : ℚ) : ℤ :=
  if 0 ≤ q then ⌊q⌋ else -⌊-q⌋

/-- CalculateOptimalEf (vector_math.go lines 154-161):
minEf := k; if baseEf > minEf return int(math.Max(float64(baseEf),
float64(k)*1.5)); return int(float64(k) * 1.5). -/
def CalculateOptimalEf (k baseEf : ℤ) : ℤ :=
  let minEf := k
  if baseEf > minEf then goTruncQ (max (baseEf : ℚ) ((k : ℚ) * 1.5))
  else goTruncQ ((k : ℚ) * 1.5)

/-- The ef formula as the spec words it: max(baseEf, ceil(1.5 k)).  This
definition follows the SPEC, not the source; it is compared against
CalculateOptimalEf in claim C5. -/
def specOptimalEf (k baseEf : ℤ) : ℤ :=
  max baseEf ⌈(k : ℚ) * 1.5⌉

/-- HNSWConfig (types.go lines 85-92).  Integer fields are Go int; Ml is a
float64 modelled as an exact rational. -/
structure HNSWConfig where
  m : ℤ
  efConstruction : ℤ
  efSearch : ℤ
  maxM : ℤ
  maxM0 : ℤ
  ml : ℚ
deriving DecidableEq

/-- DefaultHNSWConfig (types.go lines 95-104).  The source line for Ml is
literally `Ml: 1.0 / 2.303, // 1/ln(2)`: the stored value is 1/2.303
(the float64 rounding of 1.0/2.303 differs from the rational 1000/2303 only
beyond the 16th decimal digit, far from the gap to 1/ln 2 that claim C6 is
about). -/
def DefaultHNSWConfig : HNSWConfig :=
  { m := 16
    efConstruction := 200
    efSearch := 50
    maxM := 16
    maxM0 := 32
    ml := 1 / 2.303 }

/-- Metadata map map[string]interface{}: keys with opaque values, modelled as
string-valued pairs (no claim inspects the values). -/
abbrev MetaMap := List (String × String)

/-- HNSWNode (types.go lines 107-113).  Connections is one duplicate-free
id list per layer, index 0 up to level. -/
structure HNSWNode where
  id : String
  vector : List ℚ
  connections : List (List String)
  level : ℕ
  metadata : MetaMap
deriving DecidableEq

instance : Inhabited HNSWNode :=
  ⟨{ id := "", vector := [], connections := [], level := 0, metadata := [] }⟩

/-- PriorityQueueItem (types.go lines 116-120).  The Index bookkeeping field
is maintained by container/heap's Swap/Push/Pop but never read by the
search algorithm, so it is omitted. -/
structure PQItem where
  id : String
  distance : ℚ
deriving DecidableEq

instance : Inhabited PQItem := ⟨{ id := "", distance := 0 }⟩

/-- The priority queue backing array (types.go line 122). -/
abbrev PQ := List PQItem

/-- Element at index i of the heap array ((pq)[i] in Go). -/
def pqGet (l : PQ) (i : ℕ) : PQItem := l.getD i default

/-- PriorityQueue.Less (types.go lines 126-128): strict comparison of the
Distance fields, giving a min-heap on Distance. -/
def pqLess (l : PQ) (i j : ℕ) : Prop := (pqGet l i).distance < (pqGet l j).distance

instance (l : PQ) (i j : ℕ) : Decidable (pqLess l i j) := by
  unfold pqLess; infer_instance

/-- PriorityQueue.Swap (types.go lines 130-134). -/
def pqSwap (l : PQ) (i j : ℕ) : PQ :=
  (l.set i (pqGet l j)).set j (pqGet l i)

/-- The sift-up loop of container/heap (func up): while j has a parent that
compares greater, swap and continue at the parent.  The loop index strictly
decreases, so the explicit step budget passed by heapUp below is never
exhausted; it only makes the recursion structural. -/
def heapUpAux (l : PQ) (j : ℕ) (fuel : ℕ) : PQ :=
  match fuel with
  | 0 => l
  | fuel + 1 =>
    if j = 0 then l
    else
      let i := (j - 1) / 2
      if pqLess l j i then heapUpAux (pqSwap l i j) i fuel
      else l

/-- Sift up from position j (container/heap func up). -/
def heapUp (l : PQ) (j : ℕ) : PQ := heapUpAux l j (j + 1)

/-- The sift-down loop of container/heap (func down) restricted to the first
n entries: while i has a child below n, pick the smaller child j and swap
while it compares less than i.  The loop index strictly increases below n,
so the budget n - i passed by heapDown below is never exhausted. -/
def heapDownAux (l : PQ) (i n : ℕ) (fuel : ℕ) : PQ :=
  match fuel with
  | 0 => l
  | fuel + 1 =>
    if 2 * i + 1 < n then
      let j := if 2 * i + 2 < n ∧ pqLess l (2 * i + 2) (2 * i + 1) then 2 * i + 2 else 2 * i + 1
      if pqLess l j i then heapDownAux (pqSwap l i j) j n fuel
      else l
    else l

/-- Sift down from position i within the first n entries (container/heap
func down). -/
def heapDown (l : PQ) (i n : ℕ) : PQ := heapDownAux l i n (n - i)

/-- heap.Push (container/heap): append then sift up from the last index. -/
def heapPush (l : PQ) (x : PQItem) : PQ :=
  heapUp (l ++ [x]) l.length

/-- heap.Pop (container/heap): swap the root with the last entry, sift the
new root down within the first n entries, then remove and return the last
entry (the old root).  All call sites in hnsw.go guard on Len() > 0. -/
def heapPop (l : PQ) : PQItem × PQ :=
  let n := l.length - 1
  let l2 := heapDown (pqSwap l 0 n) 0 n
  (pqGet l2 n, l2.take n)

/-- The binary-heap ordering on the first n entries of the array: every
child below n compares at least its parent.  This is the invariant that
container/heap maintains and that the result ordering of searchLayer rests
on. -/
def IsHeapN (l : PQ) (n : ℕ) : Prop :=
  ∀ j, j < n → 0 < j → (pqGet l ((j - 1) / 2)).distance ≤ (pqGet l j).distance

/-- Heap ordering for the whole array. -/
def IsHeap (l : PQ) : Prop := IsHeapN l l.length

/-- getRandomLevel (hnsw.go lines 337-343), one float draw per loop test:
level := 0; for rng.Float64() < ml && level < 16 { level++ }. -/
def getRandomLevelFrom (ml : ℚ) (draws : ℕ → ℚ) (level : ℕ) (fuel : ℕ) : ℕ :=
  match fuel with
  | 0 => level
  | fuel + 1 =>
      if draws level < ml ∧ level < 16 then getRandomLevelFrom ml draws (level + 1) fuel
      else level

/-- getRandomLevel entry point; 17 loop tests always suffice because the
level is capped at 16. -/
def getRandomLevel (ml : ℚ) (draws : ℕ → ℚ) : ℕ :=
  getRandomLevelFrom ml draws 0 17

/-- Association-list lookup, modelling Go map read m[k]. -/
def alookup {β : Type} (m : List (String × β)) (k : String) : Option β :=
  match m with
  | [] => none
  | (k', v) :: rest => if k' = k then some v else alookup rest k

/-- Association-list write, modelling Go map write m[k] = v (replace in
place if the key is present, otherwise add; list position models one
admissible iteration order). -/
def aset {β : Type} (m : List (String × β)) (k : String) (v : β) : List (String × β) :=
  match m with
  | [] => [(k, v)]
  | (k', v') :: rest => if k' = k then (k', v) :: rest else (k', v') :: aset rest k v

/-- Association-list removal, modelling Go delete(m, k). -/
def aerase {β : Type} (m : List (String × β)) (k : String) : List (String × β) :=
  match m with
  | [] => []
  | (k', v') :: rest => if k' = k then rest else (k', v') :: aerase rest k

/-- In-place mutation of the value stored under a key, modelling a write
through a *HNSWNode pointer obtained from the map (the pointer target is the
map-resident node).  Absent keys are untouched. -/
def aupdate {β : Type} (m : List (String × β)) (k : String) (f : β → β) : List (String × β) :=
  m.map (fun p => if p.1 = k then (p.1, f p.2) else p)

/-- The nodes map of the index: map[string]*HNSWNode. -/
abbrev NodeMap := List (String × HNSWNode)

/-- Insertion into a map[string]bool used as a set (Go: s[id] = true). -/
def setInsert (s : List String) (id : String) : List String :=
  if id ∈ s then s else s ++ [id]

/-- The connection set of a node at a layer, node.Connections[level]; reads
in hnsw.go are always guarded by level < len(node.Connections), so the
default empty list is never produced by a guarded read. -/
def connsAt (n : HNSWNode) (level : ℕ) : List String :=
  n.connections.getD level []

/-- addConnection (hnsw.go lines 305-309): add node2's id into node1's set
at the layer, guarded by level < len(node1.Connections). -/
def nodeAddConn (n : HNSWNode) (otherId : String) (level : ℕ) : HNSWNode :=
  if level < n.connections.length then
    { n with connections := n.connections.set level (setInsert (connsAt n level) otherId) }
  else n

/-- Error values of the program.  DimensionMismatchError, VectorNotFoundError
and InvalidConfigError are the typed errors of errors.go; duplicate models
the fmt.Errorf "vector with ID %s already exists" of vectordb.go line 111
(the spec's Duplicate kind); databaseError models DatabaseError{Operation,
Cause}; message models an untyped fmt error. -/
inductive DBError where
  | dimensionMismatch (expected actual : ℤ)
  | duplicate (id : String)
  | notFound (id : String)
  | invalidConfig (field : String)
  | message (s : String)
  | databaseError (operation : String) (cause : DBError)
deriving DecidableEq

/-- Decidable equality of Except values, used to evaluate concrete runs of
the fallible operations. -/
instance exceptDecEq {ε α : Type} [DecidableEq ε] [DecidableEq α] :
    DecidableEq (Except ε α)
  | .error e1, .error e2 =>
    if h : e1 = e2 then .isTrue (by rw [h]) else .isFalse (fun hc => h (by cases hc; rfl))
  | .error _, .ok _ => .isFalse (fun hc => Except.noConfusion hc)
  | .ok _, .error _ => .isFalse (fun hc => Except.noConfusion hc)
  | .ok a1, .ok a2 =>
    if h : a1 = a2 then .isTrue (by rw [h]) else .isFalse (fun hc => h (by cases hc; rfl))

/-- HNSWIndex (hnsw.go lines 11-21).  The distanceFunc is carried as the
DistFn argument of each operation; levelMultiplier is the copy of config.Ml
made by NewHNSWIndex (line 30), read back through config.ml here; the rng is
passed as explicit draw streams. -/
structure HNSWIndex where
  nodes : NodeMap
  entryPoint : Option String
  config : HNSWConfig
  dimensions : ℤ
  maxLevel : ℕ
deriving DecidableEq

/-- NewHNSWIndex (hnsw.go lines 24-33): empty map, nil entry point, zero
maxLevel. -/
def newHNSWIndex (config : HNSWConfig) (dimensions : ℤ) : HNSWIndex :=
  { nodes := [], entryPoint := none, config := config, dimensions := dimensions, maxLevel := 0 }

/-- The mutable state of one searchLayer run (hnsw.go lines 191-193):
the visited set and the two priority queues. -/
structure SLState where
  visited : List String
  candidates : PQ
  w : PQ
deriving DecidableEq

/-- The entry-point initialisation of searchLayer (hnsw.go lines 199-210):
push each entry point into candidates with its distance and into w with the
negated distance, and mark it visited. -/
def slInit (dist : DistFn) (query : List ℚ) (eps : List HNSWNode) : SLState :=
  eps.foldl
    (fun st ep =>
      let d := dist query ep.vector
      { visited := setInsert st.visited ep.id
        candidates := heapPush st.candidates { id := ep.id, distance := d }
        w := heapPush st.w { id := ep.id, distance := -d } })
    { visited := [], candidates := [], w := [] }

/-- One step of the neighbour scan of searchLayer (hnsw.go lines 227-257).
A nil *HNSWNode for an id that is in some connection set but not in the
nodes map panics at neighbor.Vector, hence none. -/
def slVisitNeighbor (nodes : NodeMap) (dist : DistFn) (query : List ℚ) (ef : ℤ)
    (st : SLState) (neighborId : String) : Option SLState :=
  if neighborId ∈ st.visited then some st
  else
    let visited' := setInsert st.visited neighborId
    match alookup nodes neighborId with
    | none => none
    | some neighbor =>
      let d := dist query neighbor.vector
      if (st.w.length : ℤ) < ef then
        some { visited := visited'
               candidates := heapPush st.candidates { id := neighborId, distance := d }
               w := heapPush st.w { id := neighborId, distance := -d } }
      else
        let furthest := pqGet st.w 0
        if d < -furthest.distance then
          some { visited := visited'
                 candidates := heapPush st.candidates { id := neighborId, distance := d }
                 w := heapPush (heapPop st.w).2 { id := neighborId, distance := -d } }
        else some { st with visited := visited' }

/-- The main loop of searchLayer (hnsw.go lines 212-259), fuelled: each
iteration pops one candidate, and the number of candidate pushes is bounded
by the entry points plus one per map node, so the fuel passed by searchLayer
is never exhausted; running dry returns none like a panic would. -/
def slLoop (nodes : NodeMap) (dist : DistFn) (query : List ℚ) (ef : ℤ) (level : ℕ)
    (st : SLState) (fuel : ℕ) : Option SLState :=
  match fuel with
  | 0 => none
  | fuel + 1 =>
    if st.candidates.length = 0 then some st
    else
      let popped := heapPop st.candidates
      let current := popped.1
      let st := { st with candidates := popped.2 }
      if (st.w.length : ℤ) ≥ ef ∧ current.distance > -(pqGet st.w 0).distance then
        some st
      else
        match alookup nodes current.id with
        | none => none
        | some currentNode =>
          let afterScan : Option SLState :=
            if level < currentNode.connections.length then
              (connsAt currentNode level).foldlM (slVisitNeighbor nodes dist query ef) st
            else some st
          match afterScan with
          | none => none
          | some st' => slLoop nodes dist query ef level st' fuel

/-- The result extraction of searchLayer (hnsw.go lines 262-268): pop w
until empty, prepending the map node of each popped id.  Each pop shortens
the array by one, so fuel w.length is exact. -/
def slExtractAux (nodes : NodeMap) (w : PQ) (acc : List HNSWNode) (fuel : ℕ) :
    Option (List HNSWNode) :=
  match fuel with
  | 0 => if w.length = 0 then some acc else none
  | fuel + 1 =>
    if w.length = 0 then some acc
    else
      let popped := heapPop w
      match alookup nodes popped.1.id with
      | none => none
      | some node => slExtractAux nodes popped.2 (node :: acc) fuel

/-- searchLayer (hnsw.go lines 190-269). -/
def searchLayer (nodes : NodeMap) (dist : DistFn) (query : List ℚ) (eps : List HNSWNode)
    (ef : ℤ) (level : ℕ) : Option (List HNSWNode) :=
  match slLoop nodes dist query ef level (slInit dist query eps) (eps.length + nodes.length + 1) with
  | none => none
  | some st => slExtractAux nodes st.w [] st.w.length

/-- The inner scan of selectNeighbors (hnsw.go lines 289-293): index of the
smallest remaining distance, first occurrence on ties. -/
def snFindMin (distances : List ℚ) (minIdx j len fuel : ℕ) : ℕ :=
  match fuel with
  | 0 => minIdx
  | fuel + 1 =>
    if j < len then
      snFindMin distances (if distances.getD j 0 < distances.getD minIdx 0 then j else minIdx)
        (j + 1) len fuel
    else minIdx

/-- Swap of two positions of a list, modelling the parallel in-place swaps
of selectNeighbors. -/
def listSwap {α : Type} [Inhabited α] (l : List α) (i j : ℕ) : List α :=
  (l.set i (l.getD j default)).set j (l.getD i default)

/-- The outer selection loop of selectNeighbors (hnsw.go lines 287-299):
move the closest remaining candidate to position i by a swap and append it. -/
def snOuter (cands : List HNSWNode) (distances : List ℚ) (selected : List HNSWNode)
    (i : ℕ) (m : ℤ) (fuel : ℕ) : List HNSWNode :=
  match fuel with
  | 0 => selected
  | fuel + 1 =>
    if (i : ℤ) < m ∧ i < cands.length then
      let minIdx := snFindMin distances i (i + 1) cands.length (cands.length - (i + 1))
      let cands' := if minIdx ≠ i then listSwap cands i minIdx else cands
      let distances' := if minIdx ≠ i then listSwap distances i minIdx else distances
      snOuter cands' distances' (selected ++ [cands'.getD i default]) (i + 1) m fuel
    else selected

/-- selectNeighbors (hnsw.go lines 272-302): the candidates themselves when
they number at most m, otherwise the m closest by a partial selection sort. -/
def selectNeighbors (dist : DistFn) (cands : List HNSWNode) (m : ℤ) (query : List ℚ) :
    List HNSWNode :=
  if (cands.length : ℤ) ≤ m then cands
  else
    snOuter cands (cands.map (fun c => dist query c.vector)) [] 0 m cands.length

/-- The removal loop of pruneConnections (hnsw.go lines 327-332), walking i
from len(connections)-1 down to maxConn: draw removeIdx in [0, i+1) with
rng.Intn (a non-positive bound panics), delete connections[removeIdx] from
the set and overwrite position removeIdx with connections[i]. -/
def pruneLoopAux (set conns : List String) (i maxConn : ℤ) (draws : ℕ → ℕ) (c : ℕ)
    (fuel : ℕ) : Option (List String × ℕ) :=
  match fuel with
  | 0 => some (set, c)
  | fuel + 1 =>
    if i ≥ maxConn then
      if 0 < i + 1 then
        let removeIdx := draws c % (i + 1).toNat
        let removeID := conns.getD removeIdx ""
        pruneLoopAux (set.erase removeID) (conns.set removeIdx (conns.getD i.toNat "")) (i - 1)
          maxConn draws (c + 1) fuel
      else none
    else some (set, c)

/-- The removal loop entry point; the budget (i - maxConn + 1).toNat is the
exact iteration count of the Go loop (zero budget coincides with the loop
guard i ≥ maxConn being false). -/
def pruneLoop (set conns : List String) (i maxConn : ℤ) (draws : ℕ → ℕ) (c : ℕ) :
    Option (List String × ℕ) :=
  pruneLoopAux set conns i maxConn draws c (i - maxConn + 1).toNat

/-- pruneConnections (hnsw.go lines 312-334): cap the connection set of the
node at maxConn (MaxM0 on layer 0, M above) by removing randomly chosen
edges from the node's own set.  The node is addressed by id; the *HNSWNode
the Go code mutates is the map-resident node. -/
def pruneConnections (cfg : HNSWConfig) (nodes : NodeMap) (nid : String) (level : ℕ)
    (draws : ℕ → ℕ) (c : ℕ) : Option (NodeMap × ℕ) :=
  let maxConn := if level = 0 then cfg.maxM0 else cfg.m
  match alookup nodes nid with
  | none => some (nodes, c)
  | some node =>
    if level < node.connections.length ∧ ((connsAt node level).length : ℤ) > maxConn then
      match pruneLoop (connsAt node level) (connsAt node level)
          (((connsAt node level).length : ℤ) - 1) maxConn draws c with
      | none => none
      | some (newSet, c') =>
        some (aupdate nodes nid (fun n => { n with connections := n.connections.set level newSet }), c')
    else some (nodes, c)

/-- One neighbour of the bidirectional-connection step of Insert (hnsw.go
lines 95-101): connect the new node and the neighbour both ways, then prune
the neighbour. -/
def insertNeighborStep (cfg : HNSWConfig) (lvl : ℕ) (newId : String) (draws : ℕ → ℕ)
    (acc : NodeMap × HNSWNode × ℕ) (neighbor : HNSWNode) : Option (NodeMap × HNSWNode × ℕ) :=
  let node' := nodeAddConn acc.2.1 neighbor.id lvl
  let nodes' := aupdate acc.1 neighbor.id (fun nb => nodeAddConn nb newId lvl)
  match pruneConnections cfg nodes' neighbor.id lvl draws acc.2.2 with
  | none => none
  | some (nodes'', c') => some (nodes'', node', c')

/-- The per-level connection loop of Insert (hnsw.go lines 83-104), from
min(level, maxLevel) down to 0: search the layer with efConstruction, select
at most M (MaxM0 on layer 0) neighbours, connect both ways with pruning, and
take the selected neighbours as the entry points of the next layer. -/
def insertLevels (cfg : HNSWConfig) (dist : DistFn) (query : List ℚ) (newId : String)
    (draws : ℕ → ℕ) (currentLevel : ℕ) (nodes : NodeMap) (node : HNSWNode)
    (ep : List HNSWNode) (c : ℕ) : Option (NodeMap × HNSWNode) :=
  match searchLayer nodes dist query ep cfg.efConstruction currentLevel with
  | none => none
  | some candidates =>
    let maxConn := if currentLevel = 0 then cfg.maxM0 else cfg.m
    let selected := selectNeighbors dist candidates maxConn query
    match selected.foldlM (insertNeighborStep cfg currentLevel newId draws) (nodes, node, c) with
    | none => none
    | some (nodes', node', c') =>
      match currentLevel with
      | 0 => some (nodes', node')
      | cl + 1 => insertLevels cfg dist query newId draws cl nodes' node' selected c'

/-- The top-down entry search shared by Insert (hnsw.go lines 78-80, stop
above the insertion level) and Search (lines 138-140, stop above layer 0):
one-best searchLayer pass per layer from currentLevel down to stopLevel+1. -/
def descendLayers (nodes : NodeMap) (dist : DistFn) (query : List ℚ) (stopLevel : ℕ)
    (currentLevel : ℕ) (ep : List HNSWNode) : Option (List HNSWNode) :=
  match currentLevel with
  | 0 => some ep
  | cl + 1 =>
    if cl + 1 > stopLevel then
      match searchLayer nodes dist query ep 1 (cl + 1) with
      | none => none
      | some ep' => descendLayers nodes dist query stopLevel cl ep'
    else some ep

/-- Insert (hnsw.go lines 36-114). -/
def hnswInsert (st : HNSWIndex) (dist : DistFn) (id : String) (vector : List ℚ)
    (metadata : MetaMap) (fdraws : ℕ → ℚ) (idraws : ℕ → ℕ) :
    Option (Except DBError HNSWIndex) :=
  if (vector.length : ℤ) ≠ st.dimensions then
    some (.error (.dimensionMismatch st.dimensions vector.length))
  else
    let level := getRandomLevel st.config.ml fdraws
    let node : HNSWNode :=
      { id := id, vector := vector, connections := List.replicate (level + 1) [],
        level := level, metadata := metadata }
    match st.entryPoint with
    | none =>
      some (.ok { st with nodes := aset st.nodes id node, entryPoint := some id, maxLevel := level })
    | some epId =>
      match alookup st.nodes epId with
      | none => none
      | some epNode =>
        match descendLayers st.nodes dist vector level st.maxLevel [epNode] with
        | none => none
        | some ep =>
          match insertLevels st.config dist vector id idraws (min level st.maxLevel)
              st.nodes node ep 0 with
          | none => none
          | some (nodes', node') =>
            let st' := if level > st.maxLevel then
                { st with maxLevel := level, entryPoint := some id } else st
            some (.ok { st' with nodes := aset nodes' id node' })

/-- SearchResult (types.go lines 15-18); Score is the distance-kernel value. -/
structure SearchResult where
  id : String
  score : ℚ
deriving DecidableEq

/-- Search (hnsw.go lines 117-159). -/
def hnswSearch (st : HNSWIndex) (dist : DistFn) (vector : List ℚ) (k ef : ℤ) :
    Option (Except DBError (List SearchResult)) :=
  if (vector.length : ℤ) ≠ st.dimensions then
    some (.error (.dimensionMismatch st.dimensions vector.length))
  else
    match st.entryPoint with
    | none => some (.ok [])
    | some epId =>
      let ef := if ef < k then k else ef
      match alookup st.nodes epId with
      | none => none
      | some epNode =>
        match descendLayers st.nodes dist vector 0 st.maxLevel [epNode] with
        | none => none
        | some ep =>
          match searchLayer st.nodes dist vector ep ef 0 with
          | none => none
          | some candidates =>
            some (.ok ((candidates.take k.toNat).map
              (fun n => { id := n.id, score := dist vector n.vector })))

/-- The reverse-edge cleanup of Delete (hnsw.go lines 172-178): for every
layer of the deleted node and every id in its set there, remove the deleted
id from that neighbour's set at the same layer; a missing neighbour is
skipped, but a neighbour whose Connections slice is shorter than the layer
makes neighbor.Connections[level] panic. -/
def deleteReverseEdges (nodes : NodeMap) (id : String) (node : HNSWNode) : Option NodeMap :=
  (List.range (node.level + 1)).foldlM
    (fun m lvl =>
      (connsAt node lvl).foldlM
        (fun m' nbId =>
          match alookup m' nbId with
          | none => some m'
          | some nb =>
            if lvl < nb.connections.length then
              some (aupdate m' nbId
                (fun x => { x with connections := x.connections.set lvl ((connsAt x lvl).erase id) }))
            else none)
        m)
    nodes

/-- findNewEntryPoint (hnsw.go lines 346-356): reset to nil/0, then scan the
nodes map keeping the first node whose level strictly exceeds the running
maximum.  Delete calls this before removing the node from the map. -/
def findNewEntryPoint (nodes : NodeMap) : Option String × ℕ :=
  nodes.foldl
    (fun acc p => if p.2.level > acc.2 then (some p.1, p.2.level) else acc)
    (none, 0)

/-- Delete (hnsw.go lines 162-187). -/
def hnswDelete (st : HNSWIndex) (id : String) : Option (Except DBError HNSWIndex) :=
  match alookup st.nodes id with
  | none => some (.error (.notFound id))
  | some node =>
    match deleteReverseEdges st.nodes id node with
    | none => none
    | some nodes1 =>
      let ep :=
        if st.entryPoint = some id then findNewEntryPoint nodes1
        else (st.entryPoint, st.maxLevel)
      some (.ok { st with nodes := aerase nodes1 id, entryPoint := ep.1, maxLevel := ep.2 })

/-- VectorMetadata (types.go lines 21-24); CreatedAt (time.Now) is passed in
as an abstract timestamp. -/
structure VectorMetadata where
  createdAt : ℕ
  tags : MetaMap
deriving DecidableEq

/-- The facade's vectors map: map[string]*VectorMetadata. -/
abbrev MetaStore := List (String × VectorMetadata)

/-- Vector (types.go lines 9-12). -/
structure Vector where
  id : String
  data : List ℚ
deriving DecidableEq

/-- InsertRequest (types.go lines 73-76). -/
structure InsertRequest where
  vector : Vector
  metadata : MetaMap
deriving DecidableEq

/-- SearchRequest (types.go lines 65-70); the DistanceMetric field is not
read by VectorDatabase.Search, and Filters are unused, so only Vector and K
are modelled. -/
structure SearchRequest where
  vector : List ℚ
  k : ℤ
deriving DecidableEq

/-- DatabaseConfig (vectordb.go lines 29-37): the fields the modelled
operations read.  The distance metric acts through the DistFn argument;
persistence paths and auto-save intervals drive file IO only. -/
structure DatabaseConfig where
  dimensions : ℤ
  hnswConfig : HNSWConfig
deriving DecidableEq

/-- VectorDatabase (vectordb.go lines 14-26): the index, the metadata map,
the configuration and the copied dimensions field.  The stats tracker and
persistence bookkeeping are omitted (unobservable by the claims). -/
structure VectorDatabase where
  index : HNSWIndex
  vectors : MetaStore
  config : DatabaseConfig
  dimensions : ℤ
deriving DecidableEq

/-- NewVectorDatabase (vectordb.go lines 56-89): reject non-positive
dimensions, otherwise start with an empty index and empty metadata map. -/
def newVectorDatabase (config : DatabaseConfig) : Except DBError VectorDatabase :=
  if config.dimensions ≤ 0 then .error (.invalidConfig "dimensions")
  else .ok
    { index := newHNSWIndex config.hnswConfig config.dimensions
      vectors := []
      config := config
      dimensions := config.dimensions }

/-- VectorDatabase.Insert (vectordb.go lines 92-133): dimension check,
duplicate check against the metadata map, index insert, then metadata
store.  The pair result is (state after the call, returned error). -/
def dbInsert (db : VectorDatabase) (dist : DistFn) (req : InsertRequest) (now : ℕ)
    (fdraws : ℕ → ℚ) (idraws : ℕ → ℕ) : Option (VectorDatabase × Option DBError) :=
  if (req.vector.data.length : ℤ) ≠ db.dimensions then
    some (db, some (.dimensionMismatch db.dimensions req.vector.data.length))
  else if (alookup db.vectors req.vector.id).isSome then
    some (db, some (.duplicate req.vector.id))
  else
    match hnswInsert db.index dist req.vector.id req.vector.data req.metadata fdraws idraws with
    | none => none
    | some (.error e) => some (db, some (.databaseError "insert" e))
    | some (.ok idx') =>
      some
        ({ db with
            index := idx'
            vectors := aset db.vectors req.vector.id { createdAt := now, tags := req.metadata } },
          none)

/-- VectorDatabase.Search (vectordb.go lines 136-158): dimension check,
default K to 10 when K ≤ 0, ef := CalculateOptimalEf(K, EfSearch), then the
index search. -/
def dbSearch (db : VectorDatabase) (dist : DistFn) (req : SearchRequest) :
    Option (Except DBError (List SearchResult)) :=
  if (req.vector.length : ℤ) ≠ db.dimensions then
    some (.error (.dimensionMismatch db.dimensions req.vector.length))
  else
    let k := if req.k ≤ 0 then 10 else req.k
    let ef := CalculateOptimalEf k db.config.hnswConfig.efSearch
    hnswSearch db.index dist req.vector k ef

/-- VectorDatabase.Delete (vectordb.go lines 161-192): existence check
against the metadata map, index delete, then metadata removal. -/
def dbDelete (db : VectorDatabase) (id : String) : Option (VectorDatabase × Option DBError) :=
  if (alookup db.vectors id).isNone then some (db, some (.notFound id))
  else
    match hnswDelete db.index id with
    | none => none
    | some (.error e) => some (db, some (.databaseError "delete" e))
    | some (.ok idx') =>
      some ({ db with index := idx', vectors := aerase db.vectors id }, none)

/-- VectorDatabase.Get (vectordb.go lines 195-221): metadata lookup, then
index lookup, returning a copy of the stored vector. -/
def dbGet (db : VectorDatabase) (id : String) : Except DBError (List ℚ × VectorMetadata) :=
  match alookup db.vectors id with
  | none => .error (.notFound id)
  | some md =>
    match alookup db.index.nodes id with
    | none => .error (.databaseError "get" (.message "vector found in metadata but not in index"))
    | some node => .ok (node.vector, md)

/-- Go slice expression l[lo:hi]: defined when 0 ≤ lo ≤ hi ≤ len(l),
otherwise a runtime panic (slice bounds out of range). -/
def goSlice {α : Type} (l : List α) (lo hi : ℤ) : Option (List α) :=
  if 0 ≤ lo ∧ lo ≤ hi ∧ hi ≤ (l.length : ℤ) then
    some ((l.drop lo.toNat).take (hi - lo).toNat)
  else none

/-- VectorDatabase.List (vectordb.go lines 224-244): collect the metadata
map's keys, short-circuit when offset ≥ len, clamp end to len, then slice
ids[offset:end]. -/
def dbList (db : VectorDatabase) (offset limit : ℤ) : Option (List String) :=
  let ids := db.vectors.map (fun p => p.1)
  if offset ≥ (ids.length : ℤ) then some []
  else
    let e := offset + limit
    let e := if e > (ids.length : ℤ) then (ids.length : ℤ) else e
    goSlice ids offset e

/-- VectorDatabase.Save (vectordb.go lines 266-347) only reads the in-memory
state and writes files; the in-memory state after a Save is the state
before it. -/
def dbSave (db : VectorDatabase) : VectorDatabase := db

/-- VectorDatabase.Load (vectordb.go lines 350-421): for each entry parsed
from the vectors file, insert into the index and store metadata; an index
error stops the loop, returning the partially rebuilt state with a wrapped
error. -/
def dbLoad (db : VectorDatabase) (dist : DistFn) (entries : List (String × List ℚ × MetaMap))
    (now : ℕ) (fdraws : ℕ → ℚ) (idraws : ℕ → ℕ) : Option (VectorDatabase × Option DBError) :=
  match entries with
  | [] => some (db, none)
  | (id, vec, md) :: rest =>
    match hnswInsert db.index dist id vec md fdraws idraws with
    | none => none
    | some (.error e) => some (db, some (.databaseError "rebuild_index" e))
    | some (.ok idx') =>
      dbLoad { db with index := idx', vectors := aset db.vectors id { createdAt := now, tags := md } }
        dist rest now fdraws idraws

/-! ### Stated properties and invariants -/

/-- Parent index in the implicit binary tree of container/heap. -/
def parentIdx (j : ℕ) : ℕ := (j - 1) / 2

/-- Comparison key of the heap entry at an index (the stored Distance). -/
def keyAt (l : PQ) (i : ℕ) : ℚ := (pqGet l i).distance

/-- State of the array during the sift-up loop: the heap ordering can be
broken only at the edge into position j, and the parent of j already bounds
the children of j from below. -/
def AlmostHeapUp (l : PQ) (j : ℕ) : Prop :=
  (∀ b, b < l.length → 0 < b → b ≠ j → keyAt l (parentIdx b) ≤ keyAt l b) ∧
  (∀ b, b < l.length → 0 < b → parentIdx b = j → 0 < j → keyAt l (parentIdx j) ≤ keyAt l b)

/-- State of the array during the sift-down loop over the first n entries:
the heap ordering can be broken only at edges out of position i, and the
parent of i already bounds the children of i from below. -/
def AlmostHeapDown (l : PQ) (i n : ℕ) : Prop :=
  (∀ b, b < n → 0 < b → parentIdx b ≠ i → keyAt l (parentIdx b) ≤ keyAt l b) ∧
  (∀ b, b < n → 0 < b → parentIdx b = i → 0 < i → keyAt l (parentIdx i) ≤ keyAt l b)

/-- Every item of the result queue w records the negated distance from the
query to the map-resident node of its id (searchLayer stores -distance in w,
hnsw.go lines 205-208, 238-241, 250-253). -/
def ItemsConsistent (nodes : NodeMap) (dist : DistFn) (query : List ℚ) (w : PQ) : Prop :=
  ∀ it ∈ w, ∃ n, alookup nodes it.id = some n ∧ it.distance = -(dist query n.vector)

/-- The entry points handed to searchLayer are map-resident nodes addressed
by their own ids (in Go they are pointers into the nodes map). -/
def EpsOK (nodes : NodeMap) (eps : List HNSWNode) : Prop :=
  ∀ ep ∈ eps, alookup nodes ep.id = some ep

/-- Every map entry stores a node carrying its own key as ID, as every Go
write h.nodes[id] = node does. -/
def NodesWF (m : NodeMap) : Prop := ∀ p ∈ m, p.2.id = p.1

instance instDecidableNodesWF (m : NodeMap) : Decidable (NodesWF m) := by
  unfold NodesWF
  infer_instance

/-- The association list has pairwise distinct keys, as a Go map does. -/
def NodupKeys {β : Type} (m : List (String × β)) : Prop := (m.map Prod.fst).Nodup

/-- Claim C10's invariant: the facade's metadata map and the index's node
map have identical key sets. -/
def KeysEq (db : VectorDatabase) : Prop :=
  ∀ id, (alookup db.vectors id).isSome ↔ (alookup db.index.nodes id).isSome

/-- Structural well-formedness of the two maps (automatic for Go maps)
together with the key-set equality of claim C10. -/
def MapInv (db : VectorDatabase) : Prop :=
  NodupKeys db.vectors ∧ NodupKeys db.index.nodes ∧ KeysEq db

/-- The two nodes agree on every field except the connection sets. -/
def nodeCoreEq (n n' : HNSWNode) : Prop :=
  n'.id = n.id ∧ n'.vector = n.vector ∧ n'.level = n.level ∧ n'.metadata = n.metadata

/-- The second map has the same keys as the first and its nodes differ at
most in their connection sets (the effect of the neighbour updates of
Insert and Delete). -/
def CoresPreserved (m m' : NodeMap) : Prop :=
  ∀ k, ((alookup m k).isSome ↔ (alookup m' k).isSome) ∧
    ∀ n n', alookup m k = some n → alookup m' k = some n' → nodeCoreEq n n'

/-- Claim C9's stored-vector property: the id is present in the metadata
map and the index holds a node with exactly the given vector under it. -/
def HasVector (db : VectorDatabase) (id : String) (v : List ℚ) : Prop :=
  (alookup db.vectors id).isSome ∧ ∃ n, alookup db.index.nodes id = some n ∧ n.vector = v

/-! ### Concrete states used by counterexamples and witnesses -/

/-- A legal custom configuration with MaxM0 = 1, making layer-0 pruning
fire as soon as a node has two connections. -/
def cfgM1 : HNSWConfig :=
  { m := 1, efConstruction := 200, efSearch := 50, maxM := 1, maxM0 := 1, ml := 1 / 2.303 }

/-- Index state reached by inserting A, B, C (levels all 0) under cfgM1:
A carries edges to B and C, each reciprocated, and A's layer-0 set has just
exceeded MaxM0 = 1, so Insert is about to prune A. -/
def pruneMap : NodeMap :=
  [ ("A", { id := "A", vector := [0], connections := [["B", "C"]], level := 0, metadata := [] }),
    ("B", { id := "B", vector := [1], connections := [["A"]], level := 0, metadata := [] }),
    ("C", { id := "C", vector := [2], connections := [["A"]], level := 0, metadata := [] }) ]

/-- Integer rng draw stream that always yields 1. -/
def drawsN1 : ℕ → ℕ := fun _ => 1

/-- Integer rng draw stream that always yields 0. -/
def drawsN0 : ℕ → ℕ := fun _ => 0

/-- Float rng draw stream that always yields 1 (getRandomLevel stops at
level 0 since 1 is not below any probability). -/
def drawsQ1 : ℕ → ℚ := fun _ => 1

/-- Index with two level-0 nodes A (the entry point) and B, mutually
connected on layer 0: the state reached by inserting A then B (both drawing
level 0) into a fresh index. -/
def delIdx : HNSWIndex :=
  { nodes :=
      [ ("A", { id := "A", vector := [0], connections := [["B"]], level := 0, metadata := [] }),
        ("B", { id := "B", vector := [1], connections := [["A"]], level := 0, metadata := [] }) ]
    entryPoint := some "A"
    config := DefaultHNSWConfig
    dimensions := 1
    maxLevel := 0 }

/-- A one-vector database over dimension 1: the state reached by creating a
fresh database and inserting id A with vector [0] at level 0. -/
def oneNodeDb : VectorDatabase :=
  { index :=
      { nodes := [("A", { id := "A", vector := [0], connections := [[]], level := 0, metadata := [] })]
        entryPoint := some "A"
        config := DefaultHNSWConfig
        dimensions := 1
        maxLevel := 0 }
    vectors := [("A", { createdAt := 0, tags := [] })]
    config := { dimensions := 1, hnswConfig := DefaultHNSWConfig }
    dimensions := 1 }

/-- The database produced by NewVectorDatabase over dimension 1 with the
default HNSW configuration. -/
def freshDb : VectorDatabase :=
  { index := newHNSWIndex DefaultHNSWConfig 1
    vectors := []
    config := { dimensions := 1, hnswConfig := DefaultHNSWConfig }
    dimensions := 1 }

/-- The empty database with a dangling entry pointer: reached by inserting
a single node that drew level 1 and then deleting it (findNewEntryPoint
runs before the map removal and re-selects the deleted node, hnsw.go lines
181-185). -/
def danglingDb : VectorDatabase :=
  { index :=
      { nodes := []
        entryPoint := some "A"
        config := DefaultHNSWConfig
        dimensions := 1
        maxLevel := 1 }
    vectors := []
    config := { dimensions := 1, hnswConfig := DefaultHNSWConfig }
    dimensions := 1 }

/-! ### Heap array basics -/

theorem pqLess_iff (l : PQ) (i j : ℕ) : pqLess l i j ↔ keyAt l i < keyAt l j := Iff.rfl

theorem pqGet_set_self (l : PQ) (i : ℕ) (a : PQItem) (h : i < l.length) :
    pqGet (l.set i a) i = a := by
  simp [pqGet, List.getD_eq_getElem?_getD, List.getElem?_set_self', h]

theorem pqGet_set_other (l : PQ) (i j : ℕ) (a : PQItem) (h : i ≠ j) :
    pqGet (l.set i a) j = pqGet l j := by
  simp [pqGet, List.getD_eq_getElem?_getD, List.getElem?_set_ne h]

theorem pqSwap_length (l : PQ) (i j : ℕ) : (pqSwap l i j).length = l.length := by
  simp [pqSwap]

theorem pqGet_swap_fst (l : PQ) (i j : ℕ) (hi : i < l.length) (hij : i ≠ j) :
    pqGet (pqSwap l i j) i = pqGet l j := by
  rw [pqSwap, pqGet_set_other _ _ _ _ (Ne.symm hij), pqGet_set_self _ _ _ hi]

theorem pqGet_swap_snd (l : PQ) (i j : ℕ) (hj : j < l.length) :
    pqGet (pqSwap l i j) j = pqGet l i := by
  rw [pqSwap, pqGet_set_self]
  simpa using hj

theorem pqGet_swap_other (l : PQ) (i j p : ℕ) (hpi : p ≠ i) (hpj : p ≠ j) :
    pqGet (pqSwap l i j) p = pqGet l p := by
  rw [pqSwap, pqGet_set_other _ _ _ _ (Ne.symm hpj), pqGet_set_other _ _ _ _ (Ne.symm hpi)]

theorem pqGet_mem (l : PQ) (i : ℕ) (h : i < l.length) : pqGet l i ∈ l := by
  rw [pqGet, List.getD_eq_getElem l default h]
  exact List.getElem_mem h

theorem mem_swap (l : PQ) (i j : ℕ) (hi : i < l.length) (hj : j < l.length) :
    ∀ x ∈ pqSwap l i j, x ∈ l := by
  intro x hx
  rcases List.mem_or_eq_of_mem_set hx with hx' | hx'
  · rcases List.mem_or_eq_of_mem_set hx' with hx'' | hx''
    · exact hx''
    · exact hx'' ▸ pqGet_mem l j hj
  · exact hx' ▸ pqGet_mem l i hi

theorem heapUpAux_length (fuel : ℕ) :
    ∀ (l : PQ) (j : ℕ), (heapUpAux l j fuel).length = l.length := by
  induction fuel with
  | zero => intro l j; rfl
  | succ fuel ih =>
    intro l j
    rw [heapUpAux]
    dsimp only
    split
    · rfl
    · split
      · rw [ih, pqSwap_length]
      · rfl

theorem heapUp_length (l : PQ) (j : ℕ) : (heapUp l j).length = l.length :=
  heapUpAux_length (j + 1) l j

theorem heapDownAux_length (fuel : ℕ) :
    ∀ (l : PQ) (i n : ℕ), (heapDownAux l i n fuel).length = l.length := by
  induction fuel with
  | zero => intro l i n; rfl
  | succ fuel ih =>
    intro l i n
    rw [heapDownAux]
    dsimp only
    split
    · split <;> split
      · rw [ih, pqSwap_length]
      · rfl
      · rw [ih, pqSwap_length]
      · rfl
    · rfl

theorem heapDown_length (l : PQ) (i n : ℕ) : (heapDown l i n).length = l.length :=
  heapDownAux_length (n - i) l i n

theorem mem_heapUpAux (fuel : ℕ) :
    ∀ (l : PQ) (j : ℕ), j < l.length → ∀ x ∈ heapUpAux l j fuel, x ∈ l := by
  induction fuel with
  | zero => intro l j _ x hx; exact hx
  | succ fuel ih =>
    intro l j hj x hx
    rw [heapUpAux] at hx
    dsimp only at hx
    split at hx
    · exact hx
    · have hij : (j - 1) / 2 < j :=
        Nat.lt_of_le_of_lt (Nat.div_le_self _ 2) (Nat.pred_lt (by assumption))
      split at hx
      · exact mem_swap l _ j (Nat.lt_trans hij hj) hj x
          (ih _ _ (by rw [pqSwap_length]; exact Nat.lt_trans hij hj) x hx)
      · exact hx

theorem mem_heapUp (l : PQ) (j : ℕ) (hj : j < l.length) : ∀ x ∈ heapUp l j, x ∈ l :=
  mem_heapUpAux (j + 1) l j hj

theorem mem_heapDownAux (fuel : ℕ) :
    ∀ (l : PQ) (i n : ℕ), n ≤ l.length → ∀ x ∈ heapDownAux l i n fuel, x ∈ l := by
  induction fuel with
  | zero => intro l i n _ x hx; exact hx
  | succ fuel ih =>
    intro l i n hn x hx
    rw [heapDownAux] at hx
    dsimp only at hx
    split at hx
    · split at hx
      · split at hx
        · exact mem_swap l i (2 * i + 2) (by omega) (by omega) x
            (ih _ _ n (by rw [pqSwap_length]; exact hn) x hx)
        · exact hx
      · split at hx
        · exact mem_swap l i (2 * i + 1) (by omega) (by omega) x
            (ih _ _ n (by rw [pqSwap_length]; exact hn) x hx)
        · exact hx
    · exact hx

theorem mem_heapDown (l : PQ) (i n : ℕ) (hn : n ≤ l.length) (_hi : i < n) :
    ∀ x ∈ heapDown l i n, x ∈ l :=
  mem_heapDownAux (n - i) l i n hn

theorem heapDownAux_getD_ge (fuel : ℕ) :
    ∀ (l : PQ) (i n : ℕ), ∀ p, n ≤ p → pqGet (heapDownAux l i n fuel) p = pqGet l p := by
  induction fuel with
  | zero => intro l i n p _; rfl
  | succ fuel ih =>
    intro l i n p hp
    rw [heapDownAux]
    dsimp only
    split
    · split
      · split
        · rw [ih _ _ n p hp, pqGet_swap_other l i _ p (by omega) (by omega)]
        · rfl
      · split
        · rw [ih _ _ n p hp, pqGet_swap_other l i _ p (by omega) (by omega)]
        · rfl
    · rfl

theorem heapDown_getD_ge (l : PQ) (i n : ℕ) (_hi : i < n) :
    ∀ p, n ≤ p → pqGet (heapDown l i n) p = pqGet l p :=
  fun p hp => heapDownAux_getD_ge (n - i) l i n p hp

theorem heapPush_length (l : PQ) (x : PQItem) : (heapPush l x).length = l.length + 1 := by
  rw [heapPush, heapUp_length, List.length_append, List.length_cons, List.length_nil]

theorem heapPop_rest_length (l : PQ) : (heapPop l).2.length = l.length - 1 := by
  rw [heapPop]
  simp only [List.length_take, heapDown_length, pqSwap_length]
  omega

theorem mem_heapPush (l : PQ) (x : PQItem) : ∀ y ∈ heapPush l x, y ∈ l ∨ y = x := by
  intro y hy
  have := mem_heapUp (l ++ [x]) l.length (by simp) y hy
  simpa using this

theorem heapPop_rest_subset (l : PQ) : ∀ x ∈ (heapPop l).2, x ∈ l := by
  intro x hx
  rw [heapPop] at hx
  simp only at hx
  have hx2 := List.mem_of_mem_take hx
  rcases Nat.eq_zero_or_pos (l.length - 1) with h0 | hpos
  · rw [h0] at hx
    simp at hx
  · have hlen : l.length - 1 < l.length := by omega
    have h0len : 0 < l.length := by omega
    exact mem_swap l 0 (l.length - 1) h0len hlen x
      (mem_heapDown _ 0 (l.length - 1) (by rw [pqSwap_length]; omega) hpos x hx2)

theorem heapPop_fst (l : PQ) (hl : l ≠ []) : (heapPop l).1 = pqGet l 0 := by
  rw [heapPop]
  simp only
  rcases Nat.eq_zero_or_pos (l.length - 1) with h0 | hpos
  · rw [h0]
    show pqGet (pqSwap l 0 0) 0 = pqGet l 0
    rw [pqGet_swap_snd]
    have : l.length ≠ 0 := fun h => hl (List.eq_nil_of_length_eq_zero h)
    omega
  · rw [heapDown_getD_ge _ 0 (l.length - 1) hpos _ (le_refl _),
      pqGet_swap_snd _ _ _ (by omega)]

/-! ### Heap ordering correctness of the container/heap protocol -/

theorem keyAt_swap_fst (l : PQ) (i j : ℕ) (hi : i < l.length) (hij : i ≠ j) :
    keyAt (pqSwap l i j) i = keyAt l j := by
  unfold keyAt
  rw [pqGet_swap_fst l i j hi hij]

theorem keyAt_swap_snd (l : PQ) (i j : ℕ) (hj : j < l.length) :
    keyAt (pqSwap l i j) j = keyAt l i := by
  unfold keyAt
  rw [pqGet_swap_snd l i j hj]

theorem keyAt_swap_other (l : PQ) (i j p : ℕ) (hpi : p ≠ i) (hpj : p ≠ j) :
    keyAt (pqSwap l i j) p = keyAt l p := by
  unfold keyAt
  rw [pqGet_swap_other l i j p hpi hpj]

theorem keyAt_append (l : PQ) (x : PQItem) (p : ℕ) (hp : p < l.length) :
    keyAt (l ++ [x]) p = keyAt l p := by
  unfold keyAt pqGet
  simp [List.getD_eq_getElem?_getD, List.getElem?_append, hp]

theorem keyAt_take (l : PQ) (n p : ℕ) (hp : p < n) :
    keyAt (l.take n) p = keyAt l p := by
  unfold keyAt pqGet
  simp [List.getD_eq_getElem?_getD, List.getElem?_take, hp]

theorem parentIdx_lt (j : ℕ) (h : 0 < j) : parentIdx j < j := by
  unfold parentIdx
  omega

theorem heapUpAux_isHeap (fuel : ℕ) :
    ∀ (l : PQ) (j : ℕ), j < fuel → j < l.length → AlmostHeapUp l j →
      IsHeap (heapUpAux l j fuel) := by
  induction fuel with
  | zero => intro l j hfuel _ _; omega
  | succ fuel ih =>
    intro l j hfuel hj h
    rw [heapUpAux]
    dsimp only
    split
    · rename_i hj0
      subst hj0
      intro b hb hb0
      exact h.1 b hb hb0 (by omega)
    · rename_i hj0
      have hij : (j - 1) / 2 < j := parentIdx_lt j (by omega)
      set i := (j - 1) / 2 with hidef
      have hpj : parentIdx j = i := rfl
      split
      · rename_i hless
        rw [pqLess_iff] at hless
        have hilen : i < l.length := Nat.lt_trans hij hj
        have hkij : keyAt (pqSwap l i j) i = keyAt l j :=
          keyAt_swap_fst l i j hilen (Nat.ne_of_lt hij)
        have hkjj : keyAt (pqSwap l i j) j = keyAt l i := keyAt_swap_snd l i j hj
        have hother : ∀ p, p ≠ i → p ≠ j → keyAt (pqSwap l i j) p = keyAt l p :=
          fun p hpi hpj' => keyAt_swap_other l i j p hpi hpj'
        apply ih (pqSwap l i j) i (by omega) (by rw [pqSwap_length]; exact hilen)
        constructor
        · intro b hb hb0 hbi
          rw [pqSwap_length] at hb
          by_cases hbj : b = j
          · subst hbj
            rw [hpj, hkij, hkjj]
            exact le_of_lt hless
          · by_cases hpbj : parentIdx b = j
            · rw [hpbj, hkjj, hother b hbi hbj]
              have := h.2 b hb hb0 hpbj (by omega)
              rw [hpj] at this
              exact this
            · by_cases hpbi : parentIdx b = i
              · rw [hpbi, hkij, hother b hbi hbj]
                have := h.1 b hb hb0 hbj
                rw [hpbi] at this
                exact le_trans (le_of_lt hless) this
              · rw [hother (parentIdx b) hpbi hpbj, hother b hbi hbj]
                exact h.1 b hb hb0 hbj
        · intro b hb hb0 hpbi hi0
          rw [pqSwap_length] at hb
          have hpii : parentIdx i ≠ i := Nat.ne_of_lt (parentIdx_lt i hi0)
          have hpij : parentIdx i ≠ j := Nat.ne_of_lt (Nat.lt_trans (parentIdx_lt i hi0) hij)
          rw [hother (parentIdx i) hpii hpij]
          have hbase : keyAt l (parentIdx i) ≤ keyAt l i :=
            h.1 i hilen hi0 (Nat.ne_of_lt hij)
          by_cases hbj : b = j
          · subst hbj
            rw [hkjj]
            exact hbase
          · have hbi : b ≠ i := by
              have h2 : i < b := hpbi ▸ parentIdx_lt b hb0
              exact Nat.ne_of_gt h2
            rw [hother b hbi hbj]
            have := h.1 b hb hb0 hbj
            rw [hpbi] at this
            exact le_trans hbase this
      · rename_i hnless
        rw [pqLess_iff] at hnless
        intro b hb hb0
        by_cases hbj : b = j
        · subst hbj
          exact le_of_not_lt hnless
        · exact h.1 b hb hb0 hbj

theorem heapUp_isHeap (l : PQ) (j : ℕ) (hj : j < l.length) (h : AlmostHeapUp l j) :
    IsHeap (heapUp l j) :=
  heapUpAux_isHeap (j + 1) l j (Nat.lt_succ_self j) hj h

theorem heapDown_swapcase (l : PQ) (i n j : ℕ) (hn : n ≤ l.length) (hij : i < j)
    (hjn : j < n) (hpj : parentIdx j = i)
    (hsib : ∀ s, s < n → 0 < s → parentIdx s = i → s ≠ j → keyAt l j ≤ keyAt l s)
    (hless : keyAt l j < keyAt l i) (h : AlmostHeapDown l i n) :
    AlmostHeapDown (pqSwap l i j) j n := by
  have hilen : i < l.length := by omega
  have hjlen : j < l.length := by omega
  have hkij : keyAt (pqSwap l i j) i = keyAt l j := keyAt_swap_fst l i j hilen (by omega)
  have hkjj : keyAt (pqSwap l i j) j = keyAt l i := keyAt_swap_snd l i j hjlen
  have hother : ∀ p, p ≠ i → p ≠ j → keyAt (pqSwap l i j) p = keyAt l p :=
    fun p hpi hpj' => keyAt_swap_other l i j p hpi hpj'
  constructor
  · intro b hb hb0 hpbj
    by_cases hbj : b = j
    · subst hbj
      rw [hpj, hkij, hkjj]
      exact le_of_lt hless
    · by_cases hbi : b = i
      · subst hbi
        have hpbi : parentIdx b ≠ b := Nat.ne_of_lt (parentIdx_lt b hb0)
        rw [hother (parentIdx b) hpbi (by omega), hkij]
        have := h.2 j hjn (by omega) hpj hb0
        exact this
      · by_cases hpbi : parentIdx b = i
        · rw [hpbi, hkij, hother b hbi hbj]
          exact hsib b hb hb0 hpbi hbj
        · rw [hother (parentIdx b) hpbi hpbj, hother b hbi hbj]
          exact h.1 b hb hb0 hpbi
  · intro b hb hb0 hpbj _
    rw [hpj, hkij]
    have hbj : b ≠ j := by
      have := parentIdx_lt b hb0
      omega
    have hbi : b ≠ i := by
      have h1 := parentIdx_lt b hb0
      omega
    rw [hother b hbi hbj]
    have := h.1 b hb hb0 (by rw [hpbj]; omega)
    rw [hpbj] at this
    exact this

theorem heapDownAux_isHeapN (fuel : ℕ) :
    ∀ (l : PQ) (i n : ℕ), n - i ≤ fuel → n ≤ l.length → AlmostHeapDown l i n →
      IsHeapN (heapDownAux l i n fuel) n := by
  induction fuel with
  | zero =>
    intro l i n hfuel _ h
    intro b hb hb0
    refine h.1 b hb hb0 ?_
    have := parentIdx_lt b hb0
    omega
  | succ fuel ih =>
    intro l i n hfuel hn h
    rw [heapDownAux]
    dsimp only
    split
    · rename_i hj1
      split
      · rename_i hc
        split
        · rename_i hless
          rw [pqLess_iff] at hless
          apply ih (pqSwap l i (2 * i + 2)) (2 * i + 2) n (by omega)
            (by rw [pqSwap_length]; exact hn)
          apply heapDown_swapcase l i n (2 * i + 2) hn (by omega) hc.1
            (by unfold parentIdx; omega) ?_ hless h
          intro s hs hs0 hps hsj
          have hs1 : s = 2 * i + 1 := by
            unfold parentIdx at hps
            omega
          subst hs1
          exact le_of_lt (pqLess_iff l _ _ |>.mp hc.2)
        · rename_i hnless
          rw [pqLess_iff] at hnless
          intro b hb hb0
          by_cases hpbi : parentIdx b = i
          · have hb12 : b = 2 * i + 1 ∨ b = 2 * i + 2 := by
              unfold parentIdx at hpbi
              omega
            have hki : keyAt l i ≤ keyAt l (2 * i + 2) := le_of_not_lt hnless
            rcases hb12 with hb' | hb'
            · subst hb'
              show keyAt l (parentIdx (2 * i + 1)) ≤ keyAt l (2 * i + 1)
              have : parentIdx (2 * i + 1) = i := by unfold parentIdx; omega
              rw [this]
              exact le_trans hki (le_of_lt (pqLess_iff l _ _ |>.mp hc.2))
            · subst hb'
              show keyAt l (parentIdx (2 * i + 2)) ≤ keyAt l (2 * i + 2)
              have : parentIdx (2 * i + 2) = i := by unfold parentIdx; omega
              rw [this]
              exact hki
          · exact h.1 b hb hb0 hpbi
      · rename_i hc
        split
        · rename_i hless
          rw [pqLess_iff] at hless
          apply ih (pqSwap l i (2 * i + 1)) (2 * i + 1) n (by omega)
            (by rw [pqSwap_length]; exact hn)
          apply heapDown_swapcase l i n (2 * i + 1) hn (by omega) hj1
            (by unfold parentIdx; omega) ?_ hless h
          intro s hs hs0 hps hsj
          have hs2 : s = 2 * i + 2 := by
            unfold parentIdx at hps
            omega
          subst hs2
          have : ¬ pqLess l (2 * i + 2) (2 * i + 1) := fun hp => hc ⟨hs, hp⟩
          rw [pqLess_iff] at this
          exact le_of_not_lt this
        · rename_i hnless
          rw [pqLess_iff] at hnless
          intro b hb hb0
          by_cases hpbi : parentIdx b = i
          · have hb12 : b = 2 * i + 1 ∨ b = 2 * i + 2 := by
              unfold parentIdx at hpbi
              omega
            have hki : keyAt l i ≤ keyAt l (2 * i + 1) := le_of_not_lt hnless
            rcases hb12 with hb' | hb'
            · subst hb'
              show keyAt l (parentIdx (2 * i + 1)) ≤ keyAt l (2 * i + 1)
              have : parentIdx (2 * i + 1) = i := by unfold parentIdx; omega
              rw [this]
              exact hki
            · subst hb'
              have : ¬ pqLess l (2 * i + 2) (2 * i + 1) := fun hp => hc ⟨hb, hp⟩
              rw [pqLess_iff] at this
              show keyAt l (parentIdx (2 * i + 2)) ≤ keyAt l (2 * i + 2)
              have hpi : parentIdx (2 * i + 2) = i := by unfold parentIdx; omega
              rw [hpi]
              exact le_trans hki (le_of_not_lt this)
          · exact h.1 b hb hb0 hpbi
    · rename_i hj1
      intro b hb hb0
      by_cases hpbi : parentIdx b = i
      · exfalso
        unfold parentIdx at hpbi
        omega
      · exact h.1 b hb hb0 hpbi

theorem heapDown_isHeapN (l : PQ) (i n : ℕ) (hn : n ≤ l.length) (h : AlmostHeapDown l i n) :
    IsHeapN (heapDown l i n) n :=
  heapDownAux_isHeapN (n - i) l i n (le_refl _) hn h

theorem isHeap_heapPush (l : PQ) (x : PQItem) (h : IsHeap l) : IsHeap (heapPush l x) := by
  apply heapUp_isHeap (l ++ [x]) l.length (by simp)
  constructor
  · intro b hb hb0 hbn
    simp only [List.length_append, List.length_cons, List.length_nil] at hb
    have hblt : b < l.length := by omega
    have hpblt : parentIdx b < l.length := Nat.lt_trans (parentIdx_lt b hb0) hblt
    rw [keyAt_append l x b hblt, keyAt_append l x (parentIdx b) hpblt]
    exact h b hblt hb0
  · intro b hb hb0 hpb _
    exfalso
    simp only [List.length_append, List.length_cons, List.length_nil] at hb
    unfold parentIdx at hpb
    omega

theorem isHeap_heapPop (l : PQ) (h : IsHeap l) : IsHeap (heapPop l).2 := by
  rw [heapPop]
  dsimp only
  have hlen2 : (heapDown (pqSwap l 0 (l.length - 1)) 0 (l.length - 1)).length = l.length := by
    rw [heapDown_length, pqSwap_length]
  have hdown : IsHeapN (heapDown (pqSwap l 0 (l.length - 1)) 0 (l.length - 1)) (l.length - 1) := by
    apply heapDown_isHeapN _ 0 (l.length - 1) (by rw [pqSwap_length]; omega)
    constructor
    · intro b hb hb0 hpb
      have hpbn : parentIdx b < b := parentIdx_lt b hb0
      rw [keyAt_swap_other l 0 (l.length - 1) b (by omega) (by omega),
        keyAt_swap_other l 0 (l.length - 1) (parentIdx b) hpb (by omega)]
      exact h b (by omega) hb0
    · intro b hb hb0 hpb h0
      omega
  intro b hb hb0
  simp only [List.length_take, hlen2] at hb
  have hbn : b < l.length - 1 := by omega
  have hpbn : parentIdx b < l.length - 1 := Nat.lt_trans (parentIdx_lt b hb0) hbn
  show keyAt ((heapDown (pqSwap l 0 (l.length - 1)) 0 (l.length - 1)).take (l.length - 1))
      (parentIdx b) ≤
    keyAt ((heapDown (pqSwap l 0 (l.length - 1)) 0 (l.length - 1)).take (l.length - 1)) b
  rw [keyAt_take _ _ b hbn, keyAt_take _ _ (parentIdx b) hpbn]
  exact hdown b hbn hb0

theorem isHeapN_zero_le (l : PQ) (n : ℕ) (h : IsHeapN l n) :
    ∀ j, j < n → keyAt l 0 ≤ keyAt l j := by
  intro j
  induction j using Nat.strong_induction_on with
  | _ j ih =>
    intro hj
    rcases Nat.eq_zero_or_pos j with hj0 | hj0
    · subst hj0
      exact le_refl _
    · exact le_trans
        (ih (parentIdx j) (parentIdx_lt j hj0) (Nat.lt_trans (parentIdx_lt j hj0) hj))
        (h j hj hj0)

theorem isHeap_root_le_mem (l : PQ) (h : IsHeap l) (x : PQItem) (hx : x ∈ l) :
    keyAt l 0 ≤ x.distance := by
  obtain ⟨j, hj, hjx⟩ := List.mem_iff_getElem.mp hx
  have hk := isHeapN_zero_le l l.length h j hj
  have : keyAt l j = x.distance := by
    unfold keyAt pqGet
    rw [List.getD_eq_getElem l default hj, hjx]
  rw [this] at hk
  exact hk

/-! ### searchLayer: the result queue stays a consistent heap -/

theorem alookup_mem {β : Type} (m : List (String × β)) (k : String) (v : β)
    (h : alookup m k = some v) : (k, v) ∈ m := by
  induction m with
  | nil => simp [alookup] at h
  | cons p t ih =>
    rw [alookup] at h
    split at h
    · rename_i heq
      cases h
      subst heq
      rw [Prod.mk.eta]
      exact List.mem_cons_self p t
    · exact List.mem_cons_of_mem p (ih h)

theorem foldlM_option_inv {α β : Type} (f : β → α → Option β) (P : β → Prop)
    (hf : ∀ b a b', P b → f b a = some b' → P b') :
    ∀ (l : List α) (b b' : β), P b → List.foldlM f b l = some b' → P b' := by
  intro l
  induction l with
  | nil =>
    intro b b' hb h
    simp only [List.foldlM_nil, Option.pure_def, Option.some.injEq] at h
    exact h ▸ hb
  | cons a t ih =>
    intro b b' hb h
    rw [List.foldlM_cons] at h
    cases hfa : f b a with
    | none =>
      rw [hfa] at h
      simp only [Option.bind_eq_bind, Option.none_bind] at h
      exact absurd h (by simp)
    | some b1 =>
      rw [hfa] at h
      simp only [Option.bind_eq_bind, Option.some_bind] at h
      exact ih b1 b' (hf b a b1 hb hfa) h

theorem itemsConsistent_heapPush (nodes : NodeMap) (dist : DistFn) (query : List ℚ)
    (w : PQ) (x : PQItem) (h : ItemsConsistent nodes dist query w)
    (hx : ∃ n, alookup nodes x.id = some n ∧ x.distance = -(dist query n.vector)) :
    ItemsConsistent nodes dist query (heapPush w x) := by
  intro it hit
  rcases mem_heapPush w x it hit with h1 | h1
  · exact h it h1
  · exact h1 ▸ hx

theorem itemsConsistent_heapPop (nodes : NodeMap) (dist : DistFn) (query : List ℚ)
    (w : PQ) (h : ItemsConsistent nodes dist query w) :
    ItemsConsistent nodes dist query (heapPop w).2 :=
  fun it hit => h it (heapPop_rest_subset w it hit)

theorem slVisitNeighbor_inv (nodes : NodeMap) (dist : DistFn) (query : List ℚ) (ef : ℤ)
    (st : SLState) (nid : String) (st' : SLState)
    (hw : IsHeap st.w) (hc : ItemsConsistent nodes dist query st.w)
    (h : slVisitNeighbor nodes dist query ef st nid = some st') :
    IsHeap st'.w ∧ ItemsConsistent nodes dist query st'.w := by
  unfold slVisitNeighbor at h
  dsimp only at h
  split at h
  · cases h
    exact ⟨hw, hc⟩
  · split at h
    · exact absurd h (by simp)
    · rename_i neighbor hnb
      split at h
      · cases h
        refine ⟨isHeap_heapPush _ _ hw, itemsConsistent_heapPush _ _ _ _ _ hc ?_⟩
        exact ⟨neighbor, hnb, rfl⟩
      · split at h
        · cases h
          refine ⟨isHeap_heapPush _ _ (isHeap_heapPop _ hw),
            itemsConsistent_heapPush _ _ _ _ _ (itemsConsistent_heapPop _ _ _ _ hc) ?_⟩
          exact ⟨neighbor, hnb, rfl⟩
        · cases h
          exact ⟨hw, hc⟩

theorem slLoop_inv (nodes : NodeMap) (dist : DistFn) (query : List ℚ) (ef : ℤ) (level : ℕ) :
    ∀ (fuel : ℕ) (st st' : SLState),
    IsHeap st.w → ItemsConsistent nodes dist query st.w →
    slLoop nodes dist query ef level st fuel = some st' →
    IsHeap st'.w ∧ ItemsConsistent nodes dist query st'.w := by
  intro fuel
  induction fuel with
  | zero =>
    intro st st' h1 h2 h
    simp [slLoop] at h
  | succ fuel ih =>
    intro st st' h1 h2 h
    rw [slLoop] at h
    dsimp only at h
    split at h
    · cases h
      exact ⟨h1, h2⟩
    · split at h
      · cases h
        exact ⟨h1, h2⟩
      · split at h
        · exact absurd h (by simp)
        · rename_i currentNode hcn
          split at h
          · exact absurd h (by simp)
          · rename_i st1 heq
            have hst1 : IsHeap st1.w ∧ ItemsConsistent nodes dist query st1.w := by
              split at heq
              · exact foldlM_option_inv (slVisitNeighbor nodes dist query ef)
                  (fun s => IsHeap s.w ∧ ItemsConsistent nodes dist query s.w)
                  (fun b a b' hb hf => slVisitNeighbor_inv nodes dist query ef b a b' hb.1 hb.2 hf)
                  (connsAt currentNode level)
                  { visited := st.visited, candidates := (heapPop st.candidates).2, w := st.w }
                  st1 ⟨h1, h2⟩ heq
              · cases heq
                exact ⟨h1, h2⟩
            exact ih st1 st' hst1.1 hst1.2 h

theorem slExtractAux_sorted (nodes : NodeMap) (dist : DistFn) (query : List ℚ)
    (hwf : NodesWF nodes) :
    ∀ (fuel : ℕ) (w : PQ) (acc res : List HNSWNode),
    IsHeap w → ItemsConsistent nodes dist query w →
    (∀ it ∈ w, ∀ a ∈ acc, -(it.distance) ≤ dist query a.vector) →
    List.Pairwise (fun a b => dist query a.vector ≤ dist query b.vector) acc →
    (∀ a ∈ acc, alookup nodes a.id = some a) →
    slExtractAux nodes w acc fuel = some res →
    List.Pairwise (fun a b => dist query a.vector ≤ dist query b.vector) res ∧
    (∀ a ∈ res, alookup nodes a.id = some a) := by
  intro fuel
  induction fuel with
  | zero =>
    intro w acc res hw hc hbound hsorted hmem h
    rw [slExtractAux] at h
    split at h
    · cases h
      exact ⟨hsorted, hmem⟩
    · exact absurd h (by simp)
  | succ fuel ih =>
    intro w acc res hw hc hbound hsorted hmem h
    rw [slExtractAux] at h
    split at h
    · cases h
      exact ⟨hsorted, hmem⟩
    · rename_i hne
      dsimp only at h
      split at h
      · exact absurd h (by simp)
      · rename_i node hnode
        have hwne : w ≠ [] := fun hnil => hne (by rw [hnil]; rfl)
        have hwpos : 0 < w.length := List.length_pos.mpr hwne
        have hfst : (heapPop w).1 = pqGet w 0 := heapPop_fst w hwne
        have hrootmem : pqGet w 0 ∈ w := pqGet_mem w 0 hwpos
        rw [hfst] at hnode
        obtain ⟨n0, hn0, hd0⟩ := hc (pqGet w 0) hrootmem
        rw [hn0] at hnode
        cases hnode
        have hscore : -((pqGet w 0).distance) = dist query node.vector := by
          rw [hd0]
          ring
        have hnodeid : node.id = (pqGet w 0).id :=
          hwf ((pqGet w 0).id, node) (alookup_mem nodes (pqGet w 0).id node hn0)
        have hnodemem : alookup nodes node.id = some node := by
          rw [hnodeid]
          exact hn0
        refine ih (heapPop w).2 (node :: acc) res (isHeap_heapPop w hw)
          (itemsConsistent_heapPop nodes dist query w hc) ?_ ?_ ?_ ?_
        · intro it hit a ha
          have hitw : it ∈ w := heapPop_rest_subset w it hit
          rcases List.mem_cons.mp ha with h1 | h1
          · subst h1
            rw [← hscore]
            have := isHeap_root_le_mem w hw it hitw
            unfold keyAt at this
            linarith
          · exact hbound it hitw a h1
        · rw [List.pairwise_cons]
          constructor
          · intro a ha
            rw [← hscore]
            exact hbound (pqGet w 0) hrootmem a ha
          · exact hsorted
        · intro a ha
          rcases List.mem_cons.mp ha with h1 | h1
          · exact h1 ▸ hnodemem
          · exact hmem a h1
        · exact h

theorem slInit_aux (nodes : NodeMap) (dist : DistFn) (query : List ℚ) :
    ∀ (eps : List HNSWNode) (st : SLState),
    EpsOK nodes eps →
    IsHeap st.w → ItemsConsistent nodes dist query st.w →
    IsHeap (eps.foldl
      (fun st ep =>
        let d := dist query ep.vector
        { visited := setInsert st.visited ep.id
          candidates := heapPush st.candidates { id := ep.id, distance := d }
          w := heapPush st.w { id := ep.id, distance := -d } }) st).w ∧
    ItemsConsistent nodes dist query (eps.foldl
      (fun st ep =>
        let d := dist query ep.vector
        { visited := setInsert st.visited ep.id
          candidates := heapPush st.candidates { id := ep.id, distance := d }
          w := heapPush st.w { id := ep.id, distance := -d } }) st).w := by
  intro eps
  induction eps with
  | nil =>
    intro st _ h1 h2
    exact ⟨h1, h2⟩
  | cons ep t ih =>
    intro st heps h1 h2
    rw [List.foldl_cons]
    refine ih _ (fun e he => heps e (List.mem_cons_of_mem ep he)) ?_ ?_
    · exact isHeap_heapPush _ _ h1
    · refine itemsConsistent_heapPush _ _ _ _ _ h2 ?_
      exact ⟨ep, heps ep (List.mem_cons_self ep t), rfl⟩

theorem slInit_ok (nodes : NodeMap) (dist : DistFn) (query : List ℚ) (eps : List HNSWNode)
    (heps : EpsOK nodes eps) :
    IsHeap (slInit dist query eps).w ∧ ItemsConsistent nodes dist query (slInit dist query eps).w := by
  unfold slInit
  exact slInit_aux nodes dist query eps { visited := [], candidates := [], w := [] } heps
    (by intro b hb hb0; simp [pqGet] at hb) (by intro it hit; simp at hit)

theorem searchLayer_props (nodes : NodeMap) (dist : DistFn) (query : List ℚ)
    (eps : List HNSWNode) (ef : ℤ) (level : ℕ) (res : List HNSWNode)
    (hwf : NodesWF nodes) (heps : EpsOK nodes eps)
    (h : searchLayer nodes dist query eps ef level = some res) :
    List.Pairwise (fun a b => dist query a.vector ≤ dist query b.vector) res ∧
    (∀ a ∈ res, alookup nodes a.id = some a) := by
  unfold searchLayer at h
  cases hloop : slLoop nodes dist query ef level (slInit dist query eps)
      (eps.length + nodes.length + 1) with
  | none =>
    rw [hloop] at h
    simp at h
  | some st =>
    rw [hloop] at h
    have hinit := slInit_ok nodes dist query eps heps
    have hinv := slLoop_inv nodes dist query ef level (eps.length + nodes.length + 1)
      (slInit dist query eps) st hinit.1 hinit.2 hloop
    exact slExtractAux_sorted nodes dist query hwf st.w.length st.w [] res hinv.1 hinv.2
      (by intro it hit a ha; simp at ha)
      (by simp)
      (by intro a ha; simp at ha)
      h

theorem descendLayers_epsOK (nodes : NodeMap) (dist : DistFn) (query : List ℚ)
    (stopLevel : ℕ) (hwf : NodesWF nodes) :
    ∀ (currentLevel : ℕ) (eps res : List HNSWNode), EpsOK nodes eps →
    descendLayers nodes dist query stopLevel currentLevel eps = some res →
    EpsOK nodes res := by
  intro currentLevel
  induction currentLevel with
  | zero =>
    intro eps res heps h
    rw [descendLayers] at h
    cases h
    exact heps
  | succ cl ih =>
    intro eps res heps h
    rw [descendLayers] at h
    split at h
    · rename_i hgt
      revert h
      cases hsl : searchLayer nodes dist query eps 1 (cl + 1) with
      | none =>
        intro h
        exact absurd h (by simp)
      | some ep' =>
        intro h
        have hep' : EpsOK nodes ep' :=
          (searchLayer_props nodes dist query eps 1 (cl + 1) ep' hwf heps hsl).2
        exact ih ep' res hep' h
    · cases h
      exact heps

/-! ### Association-map lemmas -/

theorem alookup_aset_self {β : Type} (m : List (String × β)) (k : String) (v : β) :
    alookup (aset m k v) k = some v := by
  induction m with
  | nil => simp [aset, alookup]
  | cons p t ih =>
    rw [aset]
    split
    · rename_i heq
      rw [alookup, if_pos heq]
    · rename_i hne
      rw [alookup, if_neg hne]
      exact ih

theorem alookup_aset_other {β : Type} (m : List (String × β)) (k : String) (v : β)
    (k' : String) (h : k' ≠ k) : alookup (aset m k v) k' = alookup m k' := by
  induction m with
  | nil =>
    show alookup [(k, v)] k' = none
    rw [alookup, if_neg (fun he => h he.symm)]
    rfl
  | cons p t ih =>
    rw [aset]
    split
    · rename_i heq
      by_cases hp : p.1 = k'
      · exact absurd (heq.symm.trans hp) (fun x => h x.symm)
      · rw [alookup, alookup, if_neg hp, if_neg hp]
    · rw [alookup, alookup]
      by_cases hp : p.1 = k'
      · rw [if_pos hp, if_pos hp]
      · rw [if_neg hp, if_neg hp]
        exact ih

theorem alookup_aerase_other {β : Type} (m : List (String × β)) (k k' : String)
    (h : k' ≠ k) : alookup (aerase m k) k' = alookup m k' := by
  induction m with
  | nil => rfl
  | cons p t ih =>
    rw [aerase]
    split
    · rename_i heq
      rw [alookup, if_neg (fun hp => h ((hp.symm.trans heq)))]
    · rw [alookup, alookup]
      by_cases hp : p.1 = k'
      · rw [if_pos hp, if_pos hp]
      · rw [if_neg hp, if_neg hp]
        exact ih

theorem alookup_none_of_not_mem_keys {β : Type} (m : List (String × β)) (k : String)
    (h : k ∉ m.map Prod.fst) : alookup m k = none := by
  induction m with
  | nil => rfl
  | cons p t ih =>
    rw [alookup]
    have hp : ¬ p.1 = k := by
      intro he
      exact h (by rw [List.map_cons]; exact List.mem_cons.mpr (Or.inl he.symm))
    rw [if_neg hp]
    exact ih (fun hk => h (by rw [List.map_cons]; exact List.mem_cons.mpr (Or.inr hk)))

theorem alookup_aerase_self {β : Type} (m : List (String × β)) (k : String)
    (h : NodupKeys m) : alookup (aerase m k) k = none := by
  induction m with
  | nil => rfl
  | cons p t ih =>
    unfold NodupKeys at h
    rw [List.map_cons, List.nodup_cons] at h
    rw [aerase]
    split
    · rename_i heq
      exact alookup_none_of_not_mem_keys t k (heq ▸ h.1)
    · rename_i hne
      rw [alookup, if_neg hne]
      exact ih h.2

theorem aupdate_keys {β : Type} (m : List (String × β)) (k : String) (f : β → β) :
    (aupdate m k f).map Prod.fst = m.map Prod.fst := by
  unfold aupdate
  rw [List.map_map]
  have hfun : (Prod.fst ∘ fun p : String × β => if p.1 = k then (p.1, f p.2) else p) =
      Prod.fst := by
    funext p
    simp only [Function.comp_apply]
    split <;> rfl
  rw [hfun]

theorem aset_keys_subset {β : Type} (m : List (String × β)) (k : String) (v : β) :
    (aset m k v).map Prod.fst = if k ∈ m.map Prod.fst then m.map Prod.fst
      else m.map Prod.fst ++ [k] := by
  induction m with
  | nil => simp [aset]
  | cons p t ih =>
    rw [aset]
    split
    · rename_i heq
      have hmem : k ∈ (p :: t).map Prod.fst := by
        rw [List.map_cons]
        exact List.mem_cons.mpr (Or.inl heq.symm)
      rw [if_pos hmem, List.map_cons, List.map_cons]
    · rename_i hne
      rw [List.map_cons, List.map_cons, ih]
      by_cases hk : k ∈ t.map Prod.fst
      · rw [if_pos hk, if_pos (List.mem_cons.mpr (Or.inr hk))]
      · have hnk : k ∉ p.1 :: t.map Prod.fst := by
          intro hmem
          rcases List.mem_cons.mp hmem with h1 | h1
          · exact hne h1.symm
          · exact hk h1
        rw [if_neg hk, if_neg hnk]
        rfl

theorem nodupKeys_aset {β : Type} (m : List (String × β)) (k : String) (v : β)
    (h : NodupKeys m) : NodupKeys (aset m k v) := by
  unfold NodupKeys at h ⊢
  rw [aset_keys_subset]
  split
  · exact h
  · rename_i hk
    rw [List.nodup_append]
    exact ⟨h, List.nodup_singleton k, fun a ha hb => hk ((List.mem_singleton.mp hb) ▸ ha)⟩

theorem aerase_keys_sublist {β : Type} (m : List (String × β)) (k : String) :
    ((aerase m k).map Prod.fst).Sublist (m.map Prod.fst) := by
  induction m with
  | nil => simp [aerase]
  | cons p t ih =>
    rw [aerase]
    split
    · rw [List.map_cons]
      exact (List.sublist_cons_self _ _)
    · rw [List.map_cons, List.map_cons]
      exact ih.cons₂ p.1

theorem nodupKeys_aerase {β : Type} (m : List (String × β)) (k : String)
    (h : NodupKeys m) : NodupKeys (aerase m k) :=
  List.Nodup.sublist (aerase_keys_sublist m k) h

theorem nodupKeys_aupdate {β : Type} (m : List (String × β)) (k : String) (f : β → β)
    (h : NodupKeys m) : NodupKeys (aupdate m k f) := by
  unfold NodupKeys
  rw [aupdate_keys]
  exact h

theorem alookup_aupdate {β : Type} (m : List (String × β)) (k : String) (f : β → β)
    (k' : String) :
    alookup (aupdate m k f) k' = if k' = k then (alookup m k').map f else alookup m k' := by
  induction m with
  | nil =>
    show (none : Option β) = if k' = k then Option.map f none else none
    split <;> rfl
  | cons p t ih =>
    show alookup ((if p.1 = k then (p.1, f p.2) else p) :: aupdate t k f) k' = _
    by_cases hpk : p.1 = k
    · rw [if_pos hpk]
      by_cases hpk' : p.1 = k'
      · have hq : k' = k := hpk'.symm.trans hpk
        rw [alookup, if_pos hpk', if_pos hq, alookup, if_pos hpk']
        rfl
      · have hstep : alookup ((p.1, f p.2) :: aupdate t k f) k' = alookup (aupdate t k f) k' := by
          rw [alookup, if_neg hpk']
        rw [hstep, ih, alookup, if_neg hpk']
    · rw [if_neg hpk]
      by_cases hpk' : p.1 = k'
      · have hq : ¬ k' = k := fun he => hpk (hpk'.trans he)
        rw [alookup, if_pos hpk', if_neg hq, alookup, if_pos hpk']
      · rw [alookup, if_neg hpk', ih, alookup, if_neg hpk']

/-! ### Connection updates preserve node cores and map keys -/

theorem nodeCoreEq_refl (n : HNSWNode) : nodeCoreEq n n := ⟨rfl, rfl, rfl, rfl⟩

theorem nodeCoreEq_trans {n1 n2 n3 : HNSWNode} (h1 : nodeCoreEq n1 n2)
    (h2 : nodeCoreEq n2 n3) : nodeCoreEq n1 n3 :=
  ⟨h2.1.trans h1.1, h2.2.1.trans h1.2.1, h2.2.2.1.trans h1.2.2.1, h2.2.2.2.trans h1.2.2.2⟩

theorem coresPreserved_refl (m : NodeMap) : CoresPreserved m m := by
  intro k
  refine ⟨Iff.rfl, ?_⟩
  intro n n' h1 h2
  rw [h1] at h2
  cases h2
  exact nodeCoreEq_refl n

theorem coresPreserved_trans {m1 m2 m3 : NodeMap} (h1 : CoresPreserved m1 m2)
    (h2 : CoresPreserved m2 m3) : CoresPreserved m1 m3 := by
  intro k
  refine ⟨(h1 k).1.trans (h2 k).1, ?_⟩
  intro n n' hn hn'
  have hsome : (alookup m2 k).isSome := ((h2 k).1.mpr (by rw [hn']; rfl))
  cases hmid : alookup m2 k with
  | none => rw [hmid] at hsome; simp at hsome
  | some nmid =>
    exact nodeCoreEq_trans ((h1 k).2 n nmid hn hmid) ((h2 k).2 nmid n' hmid hn')

theorem coresPreserved_aupdate (m : NodeMap) (k : String) (f : HNSWNode → HNSWNode)
    (hf : ∀ n, nodeCoreEq n (f n)) : CoresPreserved m (aupdate m k f) := by
  intro k'
  rw [alookup_aupdate]
  split
  · constructor
    · cases alookup m k' <;> simp
    · intro n n' hn hn'
      rw [hn] at hn'
      simp only [Option.map_some'] at hn'
      cases hn'
      exact hf n
  · constructor
    · exact Iff.rfl
    · intro n n' hn hn'
      rw [hn] at hn'
      cases hn'
      exact nodeCoreEq_refl n

theorem nodeCoreEq_nodeAddConn (n : HNSWNode) (otherId : String) (level : ℕ) :
    nodeCoreEq n (nodeAddConn n otherId level) := by
  unfold nodeAddConn
  split
  · exact ⟨rfl, rfl, rfl, rfl⟩
  · exact nodeCoreEq_refl n

theorem nodeCoreEq_setConns (n : HNSWNode) (level : ℕ) (s : List String) :
    nodeCoreEq n { n with connections := n.connections.set level s } :=
  ⟨rfl, rfl, rfl, rfl⟩

theorem aupdate_keys_eq (m : NodeMap) (k : String) (f : HNSWNode → HNSWNode) :
    (aupdate m k f).map Prod.fst = m.map Prod.fst :=
  aupdate_keys m k f

theorem pruneConnections_cores (cfg : HNSWConfig) (nodes : NodeMap) (nid : String)
    (level : ℕ) (draws : ℕ → ℕ) (c : ℕ) (m' : NodeMap) (c' : ℕ)
    (h : pruneConnections cfg nodes nid level draws c = some (m', c')) :
    CoresPreserved nodes m' ∧ m'.map Prod.fst = nodes.map Prod.fst := by
  unfold pruneConnections at h
  dsimp only at h
  split at h
  · cases h
    exact ⟨coresPreserved_refl nodes, rfl⟩
  · rename_i node hnode
    rw [show (if level = 0 then cfg.maxM0 else cfg.m) =
        (if level = 0 then cfg.maxM0 else cfg.m) from rfl] at h
    generalize (if level = 0 then cfg.maxM0 else cfg.m) = mc at h
    split at h
    · split at h
      · exact absurd h (by simp)
      · rename_i newSet c2 heq
        cases h
        exact ⟨coresPreserved_aupdate nodes nid _
          (fun n => nodeCoreEq_setConns n level newSet), aupdate_keys _ _ _⟩
    · cases h
      exact ⟨coresPreserved_refl nodes, rfl⟩

theorem insertNeighborStep_inv (cfg : HNSWConfig) (lvl : ℕ) (newId : String)
    (draws : ℕ → ℕ) (acc : NodeMap × HNSWNode × ℕ) (neighbor : HNSWNode)
    (acc' : NodeMap × HNSWNode × ℕ)
    (h : insertNeighborStep cfg lvl newId draws acc neighbor = some acc') :
    (CoresPreserved acc.1 acc'.1 ∧ acc'.1.map Prod.fst = acc.1.map Prod.fst) ∧
    nodeCoreEq acc.2.1 acc'.2.1 := by
  unfold insertNeighborStep at h
  dsimp only at h
  split at h
  · exact absurd h (by simp)
  · rename_i nodes2 c2 heq
    cases h
    have hstep1 : CoresPreserved acc.1 (aupdate acc.1 neighbor.id (fun nb => nodeAddConn nb newId lvl)) :=
      coresPreserved_aupdate acc.1 neighbor.id _ (fun n => nodeCoreEq_nodeAddConn n newId lvl)
    have hstep2 := pruneConnections_cores cfg
      (aupdate acc.1 neighbor.id (fun nb => nodeAddConn nb newId lvl)) neighbor.id lvl draws
      acc.2.2 nodes2 c2 heq
    refine ⟨⟨coresPreserved_trans hstep1 hstep2.1, ?_⟩, nodeCoreEq_nodeAddConn acc.2.1 neighbor.id lvl⟩
    rw [hstep2.2, aupdate_keys]

theorem insertLevels_inv (cfg : HNSWConfig) (dist : DistFn) (query : List ℚ) (newId : String)
    (draws : ℕ → ℕ) :
    ∀ (currentLevel : ℕ) (nodes : NodeMap) (node : HNSWNode) (ep : List HNSWNode) (c : ℕ)
      (nodes' : NodeMap) (node' : HNSWNode),
    insertLevels cfg dist query newId draws currentLevel nodes node ep c = some (nodes', node') →
    (CoresPreserved nodes nodes' ∧ nodes'.map Prod.fst = nodes.map Prod.fst) ∧
    nodeCoreEq node node' := by
  intro currentLevel
  induction currentLevel with
  | zero =>
    intro nodes node ep c nodes' node' h
    rw [insertLevels] at h
    dsimp only at h
    split at h
    · exact absurd h (by simp)
    · split at h
      · exact absurd h (by simp)
      · rename_i nodes1 node1 c1 hfold
        cases h
        have := foldlM_option_inv (insertNeighborStep cfg 0 newId draws)
          (fun a => (CoresPreserved nodes a.1 ∧ a.1.map Prod.fst = nodes.map Prod.fst) ∧
            nodeCoreEq node a.2.1)
          (fun b a b' hb hf => by
            have hs := insertNeighborStep_inv cfg 0 newId draws b a b' hf
            exact ⟨⟨coresPreserved_trans hb.1.1 hs.1.1, by rw [hs.1.2, hb.1.2]⟩,
              nodeCoreEq_trans hb.2 hs.2⟩)
          _ (nodes, node, c) (nodes', node', c1)
          ⟨⟨coresPreserved_refl nodes, rfl⟩, nodeCoreEq_refl node⟩ hfold
        exact this
  | succ cl ih =>
    intro nodes node ep c nodes' node' h
    rw [insertLevels] at h
    dsimp only at h
    split at h
    · exact absurd h (by simp)
    · split at h
      · exact absurd h (by simp)
      · rename_i nodes1 node1 c1 hfold
        have hacc1 := foldlM_option_inv (insertNeighborStep cfg (cl + 1) newId draws)
          (fun a => (CoresPreserved nodes a.1 ∧ a.1.map Prod.fst = nodes.map Prod.fst) ∧
            nodeCoreEq node a.2.1)
          (fun b a b' hb hf => by
            have hs := insertNeighborStep_inv cfg (cl + 1) newId draws b a b' hf
            exact ⟨⟨coresPreserved_trans hb.1.1 hs.1.1, by rw [hs.1.2, hb.1.2]⟩,
              nodeCoreEq_trans hb.2 hs.2⟩)
          _ (nodes, node, c) (nodes1, node1, c1)
          ⟨⟨coresPreserved_refl nodes, rfl⟩, nodeCoreEq_refl node⟩ hfold
        have hrec := ih nodes1 node1 _ c1 nodes' node' h
        exact ⟨⟨coresPreserved_trans hacc1.1.1 hrec.1.1, by rw [hrec.1.2, hacc1.1.2]⟩,
          nodeCoreEq_trans hacc1.2 hrec.2⟩

/-! ### Effect of Insert and Delete on the node map -/

theorem hnswInsert_ok (st : HNSWIndex) (dist : DistFn) (id : String) (vector : List ℚ)
    (metadata : MetaMap) (f : ℕ → ℚ) (g : ℕ → ℕ) (st' : HNSWIndex)
    (h : hnswInsert st dist id vector metadata f g = some (.ok st')) :
    (∀ k, (alookup st'.nodes k).isSome ↔ (k = id ∨ (alookup st.nodes k).isSome)) ∧
    (∃ n, alookup st'.nodes id = some n ∧ n.vector = vector) ∧
    (∀ k n, k ≠ id → alookup st.nodes k = some n →
      ∃ n', alookup st'.nodes k = some n' ∧ nodeCoreEq n n') ∧
    (NodupKeys st.nodes → NodupKeys st'.nodes) := by
  unfold hnswInsert at h
  dsimp only at h
  split at h
  · exact absurd h (by simp)
  · split at h
    · cases h
      refine ⟨?_, ?_, ?_, ?_⟩
      · intro k
        by_cases hk : k = id
        · subst hk
          rw [alookup_aset_self]
          simp
        · rw [alookup_aset_other _ _ _ _ hk]
          simp [hk]
      · refine ⟨_, alookup_aset_self _ _ _, rfl⟩
      · intro k n hk hn
        rw [alookup_aset_other _ _ _ _ hk]
        exact ⟨n, hn, nodeCoreEq_refl n⟩
      · intro hnd
        exact nodupKeys_aset _ _ _ hnd
    · rename_i epId hepm
      split at h
      · exact absurd h (by simp)
      · rename_i epNode hep
        split at h
        · exact absurd h (by simp)
        · rename_i ep hdesc
          split at h
          · exact absurd h (by simp)
          · rename_i nodes2 node2 hlvl
            cases h
            have hinv := insertLevels_inv st.config dist vector id g _ st.nodes _ _ 0
              nodes2 node2 hlvl
            have hiso : ∀ k, (alookup nodes2 k).isSome ↔ (alookup st.nodes k).isSome :=
              fun k => ((hinv.1.1 k).1).symm
            refine ⟨?_, ?_, ?_, ?_⟩
            · intro k
              show (alookup (aset nodes2 id node2) k).isSome ↔ _
              by_cases hk : k = id
              · subst hk
                rw [alookup_aset_self]
                simp
              · rw [alookup_aset_other _ _ _ _ hk, hiso k]
                simp [hk]
            · refine ⟨node2, ?_, ?_⟩
              · exact alookup_aset_self _ _ _
              · exact hinv.2.2.1
            · intro k n hk hn
              show ∃ n', alookup (aset nodes2 id node2) k = some n' ∧ nodeCoreEq n n'
              rw [alookup_aset_other _ _ _ _ hk]
              have hsome : (alookup nodes2 k).isSome := (hiso k).mpr (by rw [hn]; rfl)
              cases hn2 : alookup nodes2 k with
              | none => rw [hn2] at hsome; simp at hsome
              | some n' => exact ⟨n', rfl, (hinv.1.1 k).2 n n' hn hn2⟩
            · intro hnd
              show NodupKeys (aset nodes2 id node2)
              have hnd2 : NodupKeys nodes2 := by
                unfold NodupKeys
                rw [hinv.1.2]
                exact hnd
              exact nodupKeys_aset _ _ _ hnd2

theorem deleteReverseEdges_inv (nodes : NodeMap) (id : String) (node : HNSWNode)
    (nodes1 : NodeMap) (h : deleteReverseEdges nodes id node = some nodes1) :
    CoresPreserved nodes nodes1 ∧ nodes1.map Prod.fst = nodes.map Prod.fst := by
  unfold deleteReverseEdges at h
  refine foldlM_option_inv _
    (fun m => CoresPreserved nodes m ∧ m.map Prod.fst = nodes.map Prod.fst) ?_ _ _ _
    ⟨coresPreserved_refl nodes, rfl⟩ h
  intro m lvl m'' hm hstep
  refine foldlM_option_inv _
    (fun m2 => CoresPreserved nodes m2 ∧ m2.map Prod.fst = nodes.map Prod.fst) ?_ _ _ _
    hm hstep
  intro m2 nbId m3 hm2 hstep2
  revert hstep2
  split
  · intro hstep2
    cases hstep2
    exact hm2
  · split
    · intro hstep2
      cases hstep2
      refine ⟨coresPreserved_trans hm2.1
        (coresPreserved_aupdate _ _ _ (fun n => nodeCoreEq_setConns n lvl _)), ?_⟩
      rw [aupdate_keys]
      exact hm2.2
    · intro hstep2
      exact absurd hstep2 (by simp)

theorem hnswDelete_ok (st : HNSWIndex) (id : String) (st' : HNSWIndex)
    (h : hnswDelete st id = some (.ok st')) :
    (∀ k, k ≠ id → ((alookup st'.nodes k).isSome ↔ (alookup st.nodes k).isSome)) ∧
    (NodupKeys st.nodes → alookup st'.nodes id = none) ∧
    (∀ k n, k ≠ id → alookup st.nodes k = some n →
      ∃ n', alookup st'.nodes k = some n' ∧ nodeCoreEq n n') ∧
    (NodupKeys st.nodes → NodupKeys st'.nodes) := by
  unfold hnswDelete at h
  split at h
  · exact absurd h (by simp)
  · rename_i node hnode
    split at h
    · exact absurd h (by simp)
    · rename_i nodes1 hrev
      cases h
      have hinv := deleteReverseEdges_inv st.nodes id node nodes1 hrev
      have hnd1 : NodupKeys st.nodes → NodupKeys nodes1 := by
        intro hnd
        unfold NodupKeys
        rw [hinv.2]
        exact hnd
      refine ⟨?_, ?_, ?_, ?_⟩
      · intro k hk
        show (alookup (aerase nodes1 id) k).isSome ↔ _
        rw [alookup_aerase_other _ _ _ hk]
        exact ((hinv.1 k).1).symm
      · intro hnd
        show alookup (aerase nodes1 id) id = none
        exact alookup_aerase_self _ _ (hnd1 hnd)
      · intro k n hk hn
        show ∃ n', alookup (aerase nodes1 id) k = some n' ∧ nodeCoreEq n n'
        rw [alookup_aerase_other _ _ _ hk]
        have hsome : (alookup nodes1 k).isSome := (hinv.1 k).1.mp (by rw [hn]; rfl)
        cases hn2 : alookup nodes1 k with
        | none => rw [hn2] at hsome; simp at hsome
        | some n' => exact ⟨n', rfl, (hinv.1 k).2 n n' hn hn2⟩
      · intro hnd
        exact nodupKeys_aerase _ _ (hnd1 hnd)

/-! ### Search result shape -/

theorem getRandomLevelFrom_le (ml : ℚ) (draws : ℕ → ℚ) :
    ∀ (fuel level : ℕ), level ≤ 16 → getRandomLevelFrom ml draws level fuel ≤ 16 := by
  intro fuel
  induction fuel with
  | zero =>
    intro level hl
    exact hl
  | succ fuel ih =>
    intro level hl
    rw [getRandomLevelFrom]
    split
    · rename_i hcond
      exact ih (level + 1) (by omega)
    · exact hl

/-- Claim C8 of the specification: a successful index-level Search returns
at most k results (none for k ≤ 0), and the returned scores are
non-decreasing.  NodesWF is the pointer discipline of the Go map (every
*HNSWNode stored under a key carries that key as its ID). -/
theorem C8_search_results_bounded_and_sorted (st : HNSWIndex) (dist : DistFn)
    (vector : List ℚ) (k ef : ℤ) (res : List SearchResult) (hwf : NodesWF st.nodes)
    (h : hnswSearch st dist vector k ef = some (.ok res)) :
    res.length ≤ k.toNat ∧ List.Sorted (· ≤ ·) (res.map SearchResult.score) := by
  unfold hnswSearch at h
  split at h
  · simp at h
  · split at h
    · simp only [Option.some.injEq, Except.ok.injEq] at h
      subst h
      constructor
      · simp
      · simp [List.Sorted]
    · rename_i epId hepm
      dsimp only at h
      split at h
      · exact absurd h (by simp)
      · rename_i epNode hep
        split at h
        · exact absurd h (by simp)
        · rename_i ep hdesc
          split at h
          · exact absurd h (by simp)
          · rename_i candidates hsl
            simp only [Option.some.injEq, Except.ok.injEq] at h
            subst h
            have hepsOK : EpsOK st.nodes [epNode] := by
              intro e he
              rcases List.mem_cons.mp he with h1 | h1
              · subst h1
                have hid : e.id = epId :=
                  hwf (epId, e) (alookup_mem st.nodes epId e hep)
                rw [hid]
                exact hep
              · simp at h1
            have hepOK : EpsOK st.nodes ep :=
              descendLayers_epsOK st.nodes dist vector 0 hwf st.maxLevel [epNode] ep hepsOK hdesc
            have hprops := searchLayer_props st.nodes dist vector ep _ 0 candidates hwf hepOK hsl
            constructor
            · rw [List.length_map, List.length_take]
              omega
            · rw [List.map_map]
              have hpair : List.Pairwise (fun a b => dist vector a.vector ≤ dist vector b.vector)
                  (candidates.take k.toNat) :=
                hprops.1.sublist (List.take_sublist k.toNat candidates)
              exact List.pairwise_map.mpr hpair

/-! ### Facade-level claims -/

theorem alookup_aset_isSome {β : Type} (m : List (String × β)) (k : String) (v : β)
    (k' : String) :
    (alookup (aset m k v) k').isSome ↔ (k' = k ∨ (alookup m k').isSome) := by
  by_cases h : k' = k
  · subst h
    rw [alookup_aset_self]
    simp
  · rw [alookup_aset_other _ _ _ _ h]
    simp [h]

/-- Claim C3: inserting an id that is already present in the index's node
map fails with the Duplicate error and leaves the state unchanged.  The
facade checks its metadata map, which the key-set invariant of claim C10
identifies with the index's node map; the request vector has the configured
dimension, so the duplicate check is the one that fires. -/
theorem C3_duplicate_insert_rejected (db : VectorDatabase) (dist : DistFn)
    (req : InsertRequest) (now : ℕ) (f : ℕ → ℚ) (g : ℕ → ℕ)
    (hkeys : KeysEq db)
    (hpresent : (alookup db.index.nodes req.vector.id).isSome)
    (hdims : (req.vector.data.length : ℤ) = db.dimensions) :
    dbInsert db dist req now f g = some (db, some (.duplicate req.vector.id)) := by
  unfold dbInsert
  rw [if_neg (fun hne => hne hdims), if_pos ((hkeys req.vector.id).mpr hpresent)]

/-- Witness for claim C3 at a concrete one-vector database. -/
theorem C3_witness :
    dbInsert oneNodeDb manhattanDist
      { vector := { id := "A", data := [5] }, metadata := [] } 0 drawsQ1 drawsN0 =
      some (oneNodeDb, some (.duplicate "A")) :=
  C3_duplicate_insert_rejected oneNodeDb manhattanDist
    { vector := { id := "A", data := [5] }, metadata := [] } 0 drawsQ1 drawsN0
    (by
      intro id
      show (alookup [("A", ({ createdAt := 0, tags := [] } : VectorMetadata))] id).isSome ↔ _
      unfold alookup
      split <;> rename_i hid <;> simp [oneNodeDb, alookup, hid])
    (by decide)
    (by decide)

/-- Claim C9: a successful Insert establishes that the stored vector under
the id is exactly the inserted data; every later Insert (of any id, the
same id failing as a duplicate) and every Delete of a different id that
completes preserves it; and Get then succeeds and returns the identical
vector.  Search, Get and List do not modify the maps, and Save/Load are the
persistence path outside this round trip. -/
theorem C9_insert_then_get_roundtrip :
    (∀ (db db' : VectorDatabase) (dist : DistFn) (req : InsertRequest) (now : ℕ)
        (f : ℕ → ℚ) (g : ℕ → ℕ),
      dbInsert db dist req now f g = some (db', none) →
      HasVector db' req.vector.id req.vector.data) ∧
    (∀ (db db' : VectorDatabase) (dist : DistFn) (req : InsertRequest) (now : ℕ)
        (f : ℕ → ℚ) (g : ℕ → ℕ) (id0 : String) (v : List ℚ) (e : Option DBError),
      HasVector db id0 v → dbInsert db dist req now f g = some (db', e) →
      HasVector db' id0 v) ∧
    (∀ (db db' : VectorDatabase) (did id0 : String) (v : List ℚ) (e : Option DBError),
      did ≠ id0 → HasVector db id0 v → dbDelete db did = some (db', e) →
      HasVector db' id0 v) ∧
    (∀ (db : VectorDatabase) (id0 : String) (v : List ℚ),
      HasVector db id0 v → ∃ md, dbGet db id0 = Except.ok (v, md)) := by
  refine ⟨?_, ?_, ?_, ?_⟩
  · intro db db' dist req now f g h
    unfold dbInsert at h
    split at h
    · simp at h
    · split at h
      · simp at h
      · split at h
        · exact absurd h (by simp)
        · simp at h
        · rename_i idx' hidx
          simp only [Option.some.injEq, Prod.mk.injEq] at h
          obtain ⟨hdb', _⟩ := h
          subst hdb'
          have hok := hnswInsert_ok db.index dist req.vector.id req.vector.data
            req.metadata f g idx' hidx
          refine ⟨?_, ?_⟩
          · show (alookup (aset db.vectors req.vector.id _) req.vector.id).isSome
            rw [alookup_aset_self]
            rfl
          · exact hok.2.1
  · intro db db' dist req now f g id0 v e hv h
    unfold dbInsert at h
    split at h
    · simp only [Option.some.injEq, Prod.mk.injEq] at h
      exact h.1 ▸ hv
    · rename_i hdimok
      split at h
      · simp only [Option.some.injEq, Prod.mk.injEq] at h
        exact h.1 ▸ hv
      · rename_i hdup
        split at h
        · exact absurd h (by simp)
        · rename_i e2 hidx
          simp only [Option.some.injEq, Prod.mk.injEq] at h
          exact h.1 ▸ hv
        · rename_i idx' hidx
          simp only [Option.some.injEq, Prod.mk.injEq] at h
          obtain ⟨hdb', _⟩ := h
          subst hdb'
          have hne : id0 ≠ req.vector.id := by
            intro heq
            rw [heq] at hv
            exact hdup hv.1
          obtain ⟨hvsome, n, hn, hvec⟩ := hv
          have hok := hnswInsert_ok db.index dist req.vector.id req.vector.data
            req.metadata f g idx' hidx
          refine ⟨?_, ?_⟩
          · show (alookup (aset db.vectors req.vector.id _) id0).isSome
            rw [alookup_aset_other _ _ _ _ hne]
            exact hvsome
          · obtain ⟨n', hn', hcore⟩ := hok.2.2.1 id0 n hne hn
            exact ⟨n', hn', hcore.2.1.trans hvec⟩
  · intro db db' did id0 v e hne hv h
    unfold dbDelete at h
    split at h
    · simp only [Option.some.injEq, Prod.mk.injEq] at h
      exact h.1 ▸ hv
    · split at h
      · exact absurd h (by simp)
      · rename_i e2 hdel
        simp only [Option.some.injEq, Prod.mk.injEq] at h
        exact h.1 ▸ hv
      · rename_i idx' hdel
        simp only [Option.some.injEq, Prod.mk.injEq] at h
        obtain ⟨hdb', _⟩ := h
        subst hdb'
        obtain ⟨hvsome, n, hn, hvec⟩ := hv
        have hok := hnswDelete_ok db.index did idx' hdel
        refine ⟨?_, ?_⟩
        · show (alookup (aerase db.vectors did) id0).isSome
          rw [alookup_aerase_other _ _ _ (Ne.symm hne)]
          exact hvsome
        · obtain ⟨n', hn', hcore⟩ := hok.2.2.1 id0 n (Ne.symm hne) hn
          exact ⟨n', hn', hcore.2.1.trans hvec⟩
  · intro db id0 v hv
    obtain ⟨hvsome, n, hn, hvec⟩ := hv
    cases hmd : alookup db.vectors id0 with
    | none =>
      rw [hmd] at hvsome
      simp at hvsome
    | some md =>
      refine ⟨md, ?_⟩
      unfold dbGet
      rw [hmd, hn]
      dsimp only
      rw [hvec]

set_option maxRecDepth 10000 in
/-- Witness for claim C9: inserting id x with vector [3] into a fresh
database leaves exactly that vector stored under x. -/
theorem C9_witness :
    HasVector
      { index :=
          { nodes :=
              [("x", { id := "x", vector := [3], connections := [[]], level := 0, metadata := [] })]
            entryPoint := some "x"
            config := DefaultHNSWConfig
            dimensions := 1
            maxLevel := 0 }
        vectors := [("x", { createdAt := 0, tags := [] })]
        config := { dimensions := 1, hnswConfig := DefaultHNSWConfig }
        dimensions := 1 }
      "x" [3] :=
  C9_insert_then_get_roundtrip.1 freshDb
    { index :=
        { nodes :=
            [("x", { id := "x", vector := [3], connections := [[]], level := 0, metadata := [] })]
          entryPoint := some "x"
          config := DefaultHNSWConfig
          dimensions := 1
          maxLevel := 0 }
      vectors := [("x", { createdAt := 0, tags := [] })]
      config := { dimensions := 1, hnswConfig := DefaultHNSWConfig }
      dimensions := 1 }
    manhattanDist { vector := { id := "x", data := [3] }, metadata := [] } 0 drawsQ1 drawsN0
    (by with_unfolding_all decide)

/-- Witness for claim C8 at a concrete one-node index: searching with k=10
returns one result with a sorted score list. -/
theorem C8_witness :
    ([({ id := "A", score := 1 } : SearchResult)].length ≤ (10 : ℤ).toNat) ∧
    List.Sorted (· ≤ ·) ([({ id := "A", score := 1 } : SearchResult)].map SearchResult.score) :=
  C8_search_results_bounded_and_sorted oneNodeDb.index manhattanDist [1] 10 50
    [{ id := "A", score := 1 }] (by decide) (by with_unfolding_all decide)

/-- Claim C10: the metadata map of the facade and the node map of the index
always carry identical key sets: the invariant holds for a fresh database
and is preserved by Insert, Delete and Load (whatever error they return),
while Save, Get, List and Search leave both maps untouched (dbSave is the
in-memory identity; dbGet, dbList and dbSearch return values only).
Consequently Get's defensive branch for a metadata entry without an index
node is unreachable: under the invariant Get returns NotFound or succeeds. -/
theorem C10_keyset_equality_invariant :
    (∀ (config : DatabaseConfig) (db : VectorDatabase),
      newVectorDatabase config = .ok db → MapInv db) ∧
    (∀ (db db' : VectorDatabase) (dist : DistFn) (req : InsertRequest) (now : ℕ)
        (f : ℕ → ℚ) (g : ℕ → ℕ) (e : Option DBError), MapInv db →
      dbInsert db dist req now f g = some (db', e) → MapInv db') ∧
    (∀ (db db' : VectorDatabase) (id : String) (e : Option DBError), MapInv db →
      dbDelete db id = some (db', e) → MapInv db') ∧
    (∀ (db db' : VectorDatabase) (dist : DistFn)
        (entries : List (String × List ℚ × MetaMap)) (now : ℕ)
        (f : ℕ → ℚ) (g : ℕ → ℕ) (e : Option DBError), MapInv db →
      dbLoad db dist entries now f g = some (db', e) → MapInv db') ∧
    (∀ db : VectorDatabase, MapInv db → MapInv (dbSave db)) ∧
    (∀ (db : VectorDatabase) (id : String), KeysEq db →
      dbGet db id = Except.error (.notFound id) ∨
        ∃ v md, dbGet db id = Except.ok (v, md)) := by
  refine ⟨?_, ?_, ?_, ?_, ?_, ?_⟩
  · intro config db h
    unfold newVectorDatabase at h
    split at h
    · exact absurd h (by simp)
    · simp only [Except.ok.injEq] at h
      subst h
      exact ⟨List.nodup_nil, List.nodup_nil, fun id => Iff.rfl⟩
  · intro db db' dist req now f g e hinv h
    unfold dbInsert at h
    split at h
    · simp only [Option.some.injEq, Prod.mk.injEq] at h
      exact h.1 ▸ hinv
    · split at h
      · simp only [Option.some.injEq, Prod.mk.injEq] at h
        exact h.1 ▸ hinv
      · split at h
        · exact absurd h (by simp)
        · rename_i e2 hidx
          simp only [Option.some.injEq, Prod.mk.injEq] at h
          exact h.1 ▸ hinv
        · rename_i idx' hidx
          simp only [Option.some.injEq, Prod.mk.injEq] at h
          obtain ⟨hdb', _⟩ := h
          subst hdb'
          have hok := hnswInsert_ok db.index dist req.vector.id req.vector.data
            req.metadata f g idx' hidx
          obtain ⟨hv, hn, hkeys⟩ := hinv
          refine ⟨nodupKeys_aset _ _ _ hv, hok.2.2.2 hn, ?_⟩
          intro k
          show (alookup (aset db.vectors req.vector.id _) k).isSome ↔
            (alookup idx'.nodes k).isSome
          exact (alookup_aset_isSome _ _ _ k).trans
            ((or_congr Iff.rfl (hkeys k)).trans (hok.1 k).symm)
  · intro db db' id e hinv h
    unfold dbDelete at h
    split at h
    · simp only [Option.some.injEq, Prod.mk.injEq] at h
      exact h.1 ▸ hinv
    · split at h
      · exact absurd h (by simp)
      · rename_i e2 hdel
        simp only [Option.some.injEq, Prod.mk.injEq] at h
        exact h.1 ▸ hinv
      · rename_i idx' hdel
        simp only [Option.some.injEq, Prod.mk.injEq] at h
        obtain ⟨hdb', _⟩ := h
        subst hdb'
        have hok := hnswDelete_ok db.index id idx' hdel
        obtain ⟨hv, hn, hkeys⟩ := hinv
        refine ⟨nodupKeys_aerase _ _ hv, hok.2.2.2 hn, ?_⟩
        intro k
        show (alookup (aerase db.vectors id) k).isSome ↔ (alookup idx'.nodes k).isSome
        by_cases hk : k = id
        · subst hk
          rw [alookup_aerase_self _ _ hv, hok.2.1 hn]
          exact Iff.rfl
        · rw [alookup_aerase_other _ _ _ hk]
          exact (hkeys k).trans ((hok.1 k hk).symm)
  · intro db db' dist entries now f g e
    induction entries generalizing db with
    | nil =>
      intro hinv h
      rw [dbLoad] at h
      simp only [Option.some.injEq, Prod.mk.injEq] at h
      exact h.1 ▸ hinv
    | cons entry rest ih =>
      intro hinv h
      obtain ⟨id, vec, md⟩ := entry
      rw [dbLoad] at h
      split at h
      · exact absurd h (by simp)
      · rename_i e2 hidx
        simp only [Option.some.injEq, Prod.mk.injEq] at h
        exact h.1 ▸ hinv
      · rename_i idx' hidx
        refine ih _ ?_ h
        have hok := hnswInsert_ok db.index dist id vec md f g idx' hidx
        obtain ⟨hv, hn, hkeys⟩ := hinv
        refine ⟨nodupKeys_aset _ _ _ hv, hok.2.2.2 hn, ?_⟩
        intro k
        show (alookup (aset db.vectors id _) k).isSome ↔ (alookup idx'.nodes k).isSome
        exact (alookup_aset_isSome _ _ _ k).trans
          ((or_congr Iff.rfl (hkeys k)).trans (hok.1 k).symm)
  · intro db h
    exact h
  · intro db id hkeys
    cases hv : alookup db.vectors id with
    | none =>
      left
      unfold dbGet
      rw [hv]
    | some md =>
      right
      have hsome := (hkeys id).mp (by rw [hv]; rfl)
      cases hn : alookup db.index.nodes id with
      | none =>
        rw [hn] at hsome
        simp at hsome
      | some node =>
        refine ⟨node.vector, md, ?_⟩
        unfold dbGet
        rw [hv, hn]

set_option maxRecDepth 10000 in
/-- Witness for claim C10: the invariant after inserting into a fresh
database. -/
theorem C10_witness :
    MapInv
      { index :=
          { nodes :=
              [("x", { id := "x", vector := [3], connections := [[]], level := 0, metadata := [] })]
            entryPoint := some "x"
            config := DefaultHNSWConfig
            dimensions := 1
            maxLevel := 0 }
        vectors := [("x", { createdAt := 0, tags := [] })]
        config := { dimensions := 1, hnswConfig := DefaultHNSWConfig }
        dimensions := 1 } :=
  C10_keyset_equality_invariant.2.1 freshDb
    { index :=
        { nodes :=
            [("x", { id := "x", vector := [3], connections := [[]], level := 0, metadata := [] })]
          entryPoint := some "x"
          config := DefaultHNSWConfig
          dimensions := 1
          maxLevel := 0 }
      vectors := [("x", { createdAt := 0, tags := [] })]
      config := { dimensions := 1, hnswConfig := DefaultHNSWConfig }
      dimensions := 1 }
    manhattanDist { vector := { id := "x", data := [3] }, metadata := [] } 0 drawsQ1 drawsN0
    none ⟨List.nodup_nil, List.nodup_nil, fun id => Iff.rfl⟩ (by with_unfolding_all decide)

/-- Claim C1 is refuted: pruning drops an edge only from the pruned node's
own connection set.  From the reachable three-node state pruneMap (A
connected both ways to B and to C, MaxM0 = 1), pruneConnections on A at
layer 0 removes C from A's layer-0 set, yet C's layer-0 set still contains
A afterwards: the dropped edge is not dropped from the neighbour's set and
layer-0 symmetry is broken (hnsw.go lines 327-332 delete only from
node.Connections[level]). -/
theorem C1_prune_breaks_neighbor_symmetry :
    pruneConnections cfgM1 pruneMap "A" 0 drawsN1 0 =
      some ([("A", { id := "A", vector := [0], connections := [["B"]], level := 0, metadata := [] }),
             ("B", { id := "B", vector := [1], connections := [["A"]], level := 0, metadata := [] }),
             ("C", { id := "C", vector := [2], connections := [["A"]], level := 0, metadata := [] })],
            1) ∧
    "C" ∉ connsAt { id := "A", vector := [0], connections := [["B"]], level := 0, metadata := [] } 0 ∧
    "A" ∈ connsAt { id := "C", vector := [2], connections := [["A"]], level := 0, metadata := [] } 0 := by
  refine ⟨?_, ?_, ?_⟩ <;> with_unfolding_all decide

set_option maxRecDepth 10000 in
/-- Claim C2 is refuted: deleting the entry point A from the two-node
level-0 state delIdx leaves a non-empty node map (B survives) with no entry
point at all: findNewEntryPoint keeps a node only when its level strictly
exceeds the running maximum initialised to 0, so no level-0 node is ever
selected (hnsw.go lines 350-355), and the scan also runs before A is removed
from the map. -/
theorem C2_delete_leaves_no_entry_point :
    hnswDelete delIdx "A" = some (.ok
      { nodes := [("B", { id := "B", vector := [1], connections := [[]], level := 0, metadata := [] })]
        entryPoint := none
        config := DefaultHNSWConfig
        dimensions := 1
        maxLevel := 0 }) ∧
    [("B", { id := "B", vector := [1], connections := [[]], level := 0, metadata := [] })] ≠
      ([] : NodeMap) := by
  refine ⟨?_, ?_⟩ <;> with_unfolding_all decide

/-- Claim C4's counterexample: Search with k = 0 does not return an empty
sequence — the facade defaults k to 10 and the one-vector database returns
its stored vector — and on the empty-node-map state with a dangling entry
pointer (danglingDb, reachable through Delete) Search dereferences a missing
map entry (modelled none) instead of returning an empty sequence. -/
theorem C4_counterexample :
    dbSearch oneNodeDb manhattanDist { vector := [1], k := 0 } =
      some (.ok [{ id := "A", score := 1 }]) ∧
    dbSearch danglingDb manhattanDist { vector := [1], k := 5 } = none := by
  refine ⟨?_, ?_⟩ <;> with_unfolding_all decide

/-- Claim C4 amended: Search with k ≤ 0 behaves exactly as Search with
k = 10 (the facade defaults k, vectordb.go lines 150-151), and Search
returns the empty sequence when the index has no entry point, provided the
query has the configured dimension and the index agrees on that dimension
(hnsw.go lines 128-130). -/
theorem C4_search_k_nonpositive_defaults (db : VectorDatabase) (dist : DistFn)
    (vector : List ℚ) (k : ℤ) (hk : k ≤ 0) :
    dbSearch db dist { vector := vector, k := k } =
      dbSearch db dist { vector := vector, k := 10 } ∧
    (db.index.entryPoint = none → (vector.length : ℤ) = db.dimensions →
      db.index.dimensions = db.dimensions →
      dbSearch db dist { vector := vector, k := k } = some (.ok [])) := by
  constructor
  · unfold dbSearch
    dsimp only
    rw [if_pos hk, ite_self]
  · intro hep hdim hidim
    unfold dbSearch
    dsimp only
    rw [if_neg (fun h => h hdim)]
    unfold hnswSearch
    rw [if_neg (fun h => h (hdim.trans hidim.symm)), hep]

/-- Witness for claim C4: on the fresh database (no entry point) a search
with k = 0 equals the k = 10 search and returns the empty result list. -/
theorem C4_witness :
    dbSearch freshDb manhattanDist { vector := [1], k := 0 } =
      dbSearch freshDb manhattanDist { vector := [1], k := 10 } ∧
    dbSearch freshDb manhattanDist { vector := [1], k := 0 } = some (.ok []) :=
  ⟨(C4_search_k_nonpositive_defaults freshDb manhattanDist [1] 0 (by decide)).1,
   (C4_search_k_nonpositive_defaults freshDb manhattanDist [1] 0 (by decide)).2
     rfl rfl rfl⟩

/-- Claim C5's counterexample: the helper truncates the float instead of
taking the ceiling: CalculateOptimalEf(1, 0) = int(1.5) = 1, while the
spec's formula max(baseEf, ceil(1.5 k)) gives 2. -/
theorem C5_counterexample :
    CalculateOptimalEf 1 0 = 1 ∧ specOptimalEf 1 0 = 2 ∧
    CalculateOptimalEf 1 0 ≠ specOptimalEf 1 0 := by
  refine ⟨?_, ?_, ?_⟩ <;> with_unfolding_all decide

/-- Claim C5 amended: for every k ≥ 1 and every baseEf the helper computes
max(baseEf, floor(1.5 k)): Go's int() conversion truncates toward zero
rather than rounding up, so the spec's ceil must read floor
(vector_math.go lines 154-161; for baseEf ≤ k the max is immaterial since
baseEf ≤ k ≤ floor(1.5 k)). -/
theorem C5_optimal_ef_floor (k baseEf : ℤ) (hk : 1 ≤ k) :
    CalculateOptimalEf k baseEf = max baseEf ⌊(k : ℚ) * 1.5⌋ := by
  have hk0 : (0 : ℚ) ≤ (k : ℚ) := by exact_mod_cast (by omega : (0:ℤ) ≤ k)
  have h15 : (k : ℚ) ≤ (k : ℚ) * 1.5 := by linarith
  have hk150 : (0 : ℚ) ≤ (k : ℚ) * 1.5 := le_trans hk0 h15
  have hflo : k ≤ ⌊(k : ℚ) * 1.5⌋ := by
    rw [Int.le_floor]
    exact_mod_cast h15
  unfold CalculateOptimalEf goTruncQ
  dsimp only
  by_cases hbk : baseEf > k
  · rw [if_pos hbk, if_pos (le_trans hk150 (le_max_right _ _))]
    rcases le_total ((baseEf : ℚ)) ((k : ℚ) * 1.5) with hle | hge
    · rw [max_eq_right hle, max_eq_right (Int.le_floor.mpr hle)]
    · have hfl : ⌊(k : ℚ) * 1.5⌋ ≤ baseEf := by
        have := Int.floor_mono hge
        rwa [Int.floor_intCast] at this
      rw [max_eq_left hge, Int.floor_intCast, max_eq_left hfl]
  · rw [if_neg hbk, if_pos hk150]
    exact (max_eq_right (le_trans (by omega) hflo)).symm

/-- Witness for claim C5 at k = 3, baseEf = 4: the helper returns
max(4, floor(4.5)) = 4 (the spec formula would give max(4, 5) = 5). -/
theorem C5_witness :
    CalculateOptimalEf 3 4 = max 4 ⌊((3 : ℤ) : ℚ) * 1.5⌋ ∧ CalculateOptimalEf 3 4 = 4 :=
  ⟨C5_optimal_ef_floor 3 4 (by decide), by with_unfolding_all decide⟩

/-- Claim C6 is refuted on the decay factor: DefaultHNSWConfig stores
ml = 1/2.303 ≈ 0.434 (types.go line 102 — the comment reads 1/ln(2), but
1/ln 2 ≈ 1.4427 and 2.303 is ln 10, and getRandomLevel uses the stored
value directly as the level-up probability), while M = 16, MaxM = 16,
MaxM0 = 32, EfConstruction = 200, EfSearch = 50 and the hard level cap of
16 all match the claim. -/
theorem C6_default_ml_is_not_inv_log_two :
    DefaultHNSWConfig.m = 16 ∧ DefaultHNSWConfig.maxM = 16 ∧
    DefaultHNSWConfig.maxM0 = 32 ∧ DefaultHNSWConfig.efConstruction = 200 ∧
    DefaultHNSWConfig.efSearch = 50 ∧
    ((DefaultHNSWConfig.ml : ℝ) < 1 ∧ 1 < 1 / Real.log 2 ∧
      (DefaultHNSWConfig.ml : ℝ) ≠ 1 / Real.log 2) ∧
    ∀ (ml : ℚ) (draws : ℕ → ℚ), getRandomLevel ml draws ≤ 16 := by
  have h1 : ((DefaultHNSWConfig.ml : ℚ) : ℝ) < 1 := by
    norm_num [DefaultHNSWConfig]
  have h2 : 1 < 1 / Real.log 2 := by
    rw [lt_div_iff₀ (Real.log_pos (by norm_num))]
    have := Real.log_two_lt_d9
    linarith
  refine ⟨rfl, rfl, rfl, rfl, rfl, ⟨h1, h2, ?_⟩,
    fun ml draws => getRandomLevelFrom_le ml draws 17 0 (by omega)⟩
  intro h
  rw [h] at h1
  linarith

/-- Claim C7 is refuted: List with a negative offset aborts the process.
On the one-vector database, List(-1, 1) passes the offset ≥ len
short-circuit (-1 < 1) and reaches the slice ids[-1:0], whose negative
bound panics in Go (vectordb.go lines 234-243), modelled as none; by
contrast List(0, 5) and List(2, 5) return results. -/
theorem C7_list_negative_offset_aborts :
    dbList oneNodeDb (-1) 1 = none ∧
    dbList oneNodeDb 0 5 = some ["A"] ∧
    dbList oneNodeDb 2 5 = some [] := by
  refine ⟨?_, ?_, ?_⟩ <;> with_unfolding_all decide

end VectorDB
